import Mathlib

/-!
A verification development for the gpugt counterfactual-regret-minimization
library: a shallow embedding of its data model (finite trees, finite
extensive-form games), of the tensor-compilation and iteration loop of
`CounterfactualRegretMinimization`, of the sequence-form regret minimizers,
and of the `BestResponse` oracle, together with theorems about them.

Embedding conventions (applied uniformly below):

* A Python `FrozenOrderedSet` is embedded as a `List` (the class preserves
  insertion order and drops duplicate insertions, keeping the first
  occurrence; `odedup` mirrors that deduplication where the source builds
  such a set from a list that may repeat elements).
* A Python `FrozenOrderedMapping` / `dict` is embedded as an association
  list queried with `fget`.  A lookup that would raise `KeyError` in Python
  is rendered as `Option.none`; derived views that Python only ever
  evaluates on validated games treat such a missing key as "no
  contribution", which agrees with the source on every input on which the
  source does not raise.
* The dense integer ids assigned by `_setup_indices` are in bijection with
  the underlying keys (nodes, information sets, (information set, action)
  pairs, players), in list order.  Vectors and matrices indexed by those
  ids are therefore embedded as functions keyed directly by the underlying
  objects, and matrix products as sums over the corresponding key lists.
* IEEE-754 arithmetic is embedded as exact arithmetic over `ℚ`.  The two
  places where the float semantics is not a homomorphic image of `ℚ`
  (0/0 = NaN and reciprocal(0) = inf) are noted at their definitions; the
  source guards the only NaN that can arise (`cp.where(cp.isnan(...))`),
  and the guard is embedded as the corresponding zero-denominator test.
-/

/-- Association-list lookup, mirroring a Python `dict`/`FrozenOrderedMapping`
subscript; `none` plays the role of a `KeyError`. -/
def fget {K B : Type} [DecidableEq K] (l : List (K × B)) (k : K) : Option B :=
  (l.find? (fun p => decide (p.1 = k))).map Prod.snd

/-- Set equality of two lists, as Python compares `dict.keys()` and
`FrozenOrderedSet` values (membership in both directions). -/
def eqSetB {T : Type} [DecidableEq T] (l₁ l₂ : List T) : Bool :=
  l₁.all (fun x => decide (x ∈ l₂)) && l₂.all (fun x => decide (x ∈ l₁))

/-- Subset test of two lists, as Python compares sets with `<=`. -/
def subSetB {T : Type} [DecidableEq T] (l₁ l₂ : List T) : Bool :=
  l₁.all (fun x => decide (x ∈ l₂))

/-- Order-preserving deduplication keeping first occurrences: the effect of
constructing a Python `FrozenOrderedSet` (a `dict` of keys) from an
iterable. -/
def odedup {T : Type} [DecidableEq T] : List T → List T
  | [] => []
  | a :: l => a :: (odedup l).filter (fun x => decide (x ≠ a))

/-- Sum of a rational-valued function over a list of keys: the embedding of
a dense tensor contraction along one axis. -/
def qsum {T : Type} (l : List T) (f : T → ℚ) : ℚ :=
  (l.map f).sum

/-- The finite rooted tree of `gpugt/graphs/finite_tree.py`: vertex list,
root, leaf list and the child-to-parent association. -/
structure FiniteTree (V : Type) where
  vertices : List V
  root : V
  leaves : List V
  parents : List (V × V)

variable {V H A I : Type}

/-- `FiniteTree.non_roots`: the vertices other than the root. -/
def FiniteTree.non_roots [DecidableEq V] (t : FiniteTree V) : List V :=
  t.vertices.filter (fun v => decide (v ≠ t.root))

/-- `FiniteTree.internal_vertices`: the non-leaf vertices. -/
def FiniteTree.internal_vertices [DecidableEq V] (t : FiniteTree V) : List V :=
  t.vertices.filter (fun v => decide (v ∉ t.leaves))

/-- `FiniteTree.children`: the children of each vertex, in `non_roots`
order, exactly the lists the source accumulates in its `defaultdict`. -/
def FiniteTree.children [DecidableEq V] (t : FiniteTree V) (v : V) : List V :=
  t.non_roots.filter (fun c => decide (fget t.parents c = some v))

/-- The validation pass of `FiniteTree.__post_init__`; `Except.error`
renders a raised `ValueError`. -/
def FiniteTree.postInit [DecidableEq V] (t : FiniteTree V) : Except String Unit :=
  if t.root ∉ t.vertices then .error ("root not a member of nodes")
  else if ¬ subSetB t.leaves t.vertices then .error ("leaves not a subset of vertices")
  else if ¬ eqSetB (t.parents.map Prod.fst) t.non_roots then
    .error ("parents not defined for non-roots")
  else if ¬ eqSetB (t.parents.map Prod.snd) t.internal_vertices then
    .error ("non-parent internal vertex")
  else .ok ()

/-- The finite extensive-form game of
`gpugt/games/finite_extensive_form_game.py`. -/
structure FiniteExtensiveFormGame (V H A I : Type) where
  game_tree : FiniteTree V
  information_sets : List H
  information_partition : List (V × H)
  actions : List A
  action_partition : List (V × A)
  players : List I
  nature : Option I
  player_partition : List (H × I)
  nature_probabilities : List (H × List (A × ℚ))
  payoffs : List (V × List (I × ℚ))

namespace FiniteExtensiveFormGame

variable [DecidableEq V] [DecidableEq H] [DecidableEq A] [DecidableEq I]

/-- `nodes`: the tree's vertices. -/
def nodes (g : FiniteExtensiveFormGame V H A I) : List V :=
  g.game_tree.vertices

/-- `initial_node`: the tree's root. -/
def initial_node (g : FiniteExtensiveFormGame V H A I) : V :=
  g.game_tree.root

/-- `terminal_nodes`: the tree's leaves. -/
def terminal_nodes (g : FiniteExtensiveFormGame V H A I) : List V :=
  g.game_tree.leaves

/-- `predecessors`: the immediate-predecessor lookup (the tree's parent
map). -/
def predecessors (g : FiniteExtensiveFormGame V H A I) (v : V) : Option V :=
  fget g.game_tree.parents v

/-- `non_initial_nodes`: the tree's non-roots. -/
def non_initial_nodes (g : FiniteExtensiveFormGame V H A I) : List V :=
  g.game_tree.non_roots

/-- `decision_nodes`: the tree's internal vertices. -/
def decision_nodes (g : FiniteExtensiveFormGame V H A I) : List V :=
  g.game_tree.internal_vertices

/-- `successors`: the immediate successors (the tree's children); Python's
`successors.get(node, ())` default corresponds to the empty filter
result. -/
def successors (g : FiniteExtensiveFormGame V H A I) (v : V) : List V :=
  g.game_tree.children v

/-- `available_actions` at one information set: the actions labelling the
non-initial nodes whose predecessor lies in the information set, in
`non_initial_nodes` order, deduplicated as the source's `FrozenOrderedSet`
conversion does.  (For an information set that never occurs as a value of
the information partition the source would raise `KeyError`; this total
function returns `[]` there.) -/
def available_actions (g : FiniteExtensiveFormGame V H A I) (h : H) : List A :=
  odedup (g.non_initial_nodes.filterMap (fun c =>
    (g.predecessors c).bind (fun p =>
      (fget g.information_partition p).bind (fun h2 =>
        if h2 = h then fget g.action_partition c else none))))

/-- `nature_information_sets`: the information sets whose player is the
nature player.  (With no nature player the comparison `player == None` is
false for every player value, so the list is empty.) -/
def nature_information_sets (g : FiniteExtensiveFormGame V H A I) : List H :=
  g.information_sets.filter (fun h =>
    match fget g.player_partition h with
    | some p => decide (g.nature = some p)
    | none => false)

/-- The validation pass of `FiniteExtensiveFormGame.__post_init__`, one
distinct error per violated invariant, in source order.  Note that the
chance probabilities are only checked for having exactly the available
actions as keys; no condition inspects the probability values
themselves. -/
def postInit (g : FiniteExtensiveFormGame V H A I) : Except String Unit :=
  if ¬ eqSetB (g.information_partition.map Prod.fst) g.decision_nodes then
    .error ("information partition not on decision nodes")
  else if ¬ subSetB (g.information_partition.map Prod.snd) g.information_sets then
    .error ("undefined infoset in information partition")
  else if ¬ eqSetB (g.action_partition.map Prod.fst) g.non_initial_nodes then
    .error ("action partition not on non-initial nodes")
  else if ¬ subSetB (g.action_partition.map Prod.snd) g.actions then
    .error ("undefined action in action partition")
  else if (match g.nature with
    | some nat => decide (nat ∉ g.players)
    | none => false : Bool) then
    .error ("nature not member of players")
  else if ¬ eqSetB (g.player_partition.map Prod.fst) g.information_sets then
    .error ("player partition not on information sets")
  else if ¬ subSetB (g.player_partition.map Prod.snd) g.players then
    .error ("undefined player in player partition")
  else if ¬ eqSetB (g.nature_probabilities.map Prod.fst) g.nature_information_sets then
    .error ("nature probabilities undefined for nature information sets")
  else if ¬ eqSetB (g.payoffs.map Prod.fst) g.terminal_nodes then
    .error ("payoffs undefined for terminal nodes")
  else if ¬ (g.decision_nodes.all (fun v =>
      match fget g.information_partition v with
      | none => false
      | some h =>
        decide (Multiset.ofList ((g.available_actions h).map some)
          = Multiset.ofList ((g.successors v).map (fget g.action_partition))))) then
    .error ("actions not bijection with successors")
  else if ¬ (g.nature_information_sets.all (fun h =>
      match fget g.nature_probabilities h with
      | none => false
      | some ps => eqSetB (ps.map Prod.fst) (g.available_actions h))) then
    .error ("probabilities undefined for nature actions")
  else if ¬ ((g.payoffs.map Prod.snd).all (fun row =>
      eqSetB (row.map Prod.fst)
        (g.players.filter (fun p => decide (g.nature ≠ some p))))) then
    .error ("payoffs not defined for (rational) players")
  else .ok ()

end FiniteExtensiveFormGame

namespace CFRM

/-! The solver `CounterfactualRegretMinimization` of
`gpugt/algorithms/counterfactual_regret_minimization.py`.  First the pure
setup computations (`_setup_indices`, `_setup_tensors`,
`_setup_iteration`), then the mutable state record and the six
`_calculate_*` steps of `iterate()`. -/

variable {V H A I : Type} [DecidableEq V] [DecidableEq H] [DecidableEq A] [DecidableEq I]

/-- `_setup_indices`: the compiled information sets,
`game.information_sets - game.nature_information_sets` in insertion
order. -/
def compiledInformationSets (g : FiniteExtensiveFormGame V H A I) : List H :=
  g.information_sets.filter (fun h => decide (h ∉ g.nature_information_sets))

/-- `_setup_indices`: the compiled (information set, action) keys, grouped
by information set, each group in `available_actions` order. -/
def compiledActions (g : FiniteExtensiveFormGame V H A I) : List (H × A) :=
  (compiledInformationSets g).flatMap
    (fun h => (g.available_actions h).map (fun a => (h, a)))

/-- `_setup_indices`: the compiled players, `game.players - {game.nature}`
in insertion order. -/
def compiledPlayers (g : FiniteExtensiveFormGame V H A I) : List I :=
  g.players.filter (fun p => decide (g.nature ≠ some p))

/-- The edges recorded by one pass of the `while level_nodes` loop of
`_setup_tensors`: every (node, successor) pair with the node in the current
level. -/
def levelEdges (g : FiniteExtensiveFormGame V H A I) (levelNodes : List V) :
    List (V × V) :=
  levelNodes.flatMap (fun n => (g.successors n).map (fun c => (n, c)))

/-- `next_level_nodes`: all successors of the current level's nodes. -/
def nextLevelNodes (g : FiniteExtensiveFormGame V H A I) (levelNodes : List V) :
    List V :=
  levelNodes.flatMap (fun n => g.successors n)

/-- The `while level_nodes` breadth-first loop of `_setup_tensors`,
returning the per-level edge lists.  The Python loop carries no fuel; the
`none` result renders non-termination within the given fuel (the theorems
show the fuel `g.nodes.length + 1` used by `setup` always suffices on a
validated tree). -/
def bfsLevels (g : FiniteExtensiveFormGame V H A I) :
    ℕ → List V → Option (List (List (V × V)))
  | _, [] => some []
  | 0, _ :: _ => none
  | fuel + 1, l =>
    match bfsLevels g fuel (nextLevelNodes g l) with
    | some rest => some (levelEdges g l :: rest)
    | none => none

/-- A 0/1 adjacency matrix from an edge list (`lil_array` entries set to
1). -/
def edgeMat [DecidableEq V] (edges : List (V × V)) (u v : V) : ℚ :=
  if (u, v) ∈ edges then 1 else 0

/-- The data one pass of the `_setup_tensors` node loop derives from one
node: the predecessor's information set, the node's compiled
(information set, action) key, and the acting player — provided the node
has a predecessor and the predecessor's information set is compiled
(otherwise the loop `continue`s; a `KeyError` on a lookup, impossible on a
validated game, is rendered as `none`). -/
def nodeCompiledData (g : FiniteExtensiveFormGame V H A I) (node : V) :
    Option (H × (H × A) × I) :=
  (g.predecessors node).bind (fun p =>
    (fget g.information_partition p).bind (fun h =>
      if h ∈ compiledInformationSets g then
        (fget g.action_partition node).bind (fun act =>
          (fget g.player_partition h).map (fun i => (h, (h, act), i)))
      else none))

/-- `_action_node_mask[a, v] = 1` iff node `v`'s incoming compiled action
key is `a`.  (Only ever applied to members of `g.nodes`, the column
keys.) -/
def action_node_mask (g : FiniteExtensiveFormGame V H A I) (a : H × A) (v : V) :
    ℚ :=
  if (nodeCompiledData g v).map (fun d => d.2.1) = some a then 1 else 0

/-- `_information_set_action_mask[h, a] = 1` iff some node's loop pass sets
the entry, i.e. some node has predecessor information set `h` and compiled
action key `a`. -/
def information_set_action_mask (g : FiniteExtensiveFormGame V H A I) (h : H)
    (a : H × A) : ℚ :=
  if g.nodes.any (fun v =>
      decide ((nodeCompiledData g v).map (fun d => (d.1, d.2.1)) = some (h, a)))
  then 1 else 0

/-- `_node_player_mask[v, i]` iff node `v`'s acting player (via its
predecessor's compiled information set) is `i`. -/
def node_player_mask (g : FiniteExtensiveFormGame V H A I) (v : V) (i : I) :
    Bool :=
  (nodeCompiledData g v).map (fun d => d.2.2) = some i

/-- `_nature_strategies[v]`: the chance probability of reaching `v` from
its predecessor when the predecessor's information set belongs to nature,
else 0. -/
def nature_strategies (g : FiniteExtensiveFormGame V H A I) (v : V) : ℚ :=
  match g.predecessors v with
  | none => 0
  | some p =>
    match fget g.information_partition p with
    | none => 0
    | some h =>
      if h ∈ g.nature_information_sets then
        match fget g.nature_probabilities h, fget g.action_partition v with
        | some ps, some act => (fget ps act).getD 0
        | _, _ => 0
      else 0

/-- Row sums of the information-set-action mask,
`_information_set_action_mask.sum(1)`. -/
def information_set_action_counts (g : FiniteExtensiveFormGame V H A I)
    (h : H) : ℚ :=
  qsum (compiledActions g) (fun a => information_set_action_mask g h a)

/-- The initial strategy profile
`cp.reciprocal((mask.T @ mask.sum(1)).ravel())`.  (For an action key with
an all-zero mask column, impossible on a validated game, the float code
yields `inf`; over `ℚ` the value is `0⁻¹ = 0`.) -/
def initial_strategy_profile (g : FiniteExtensiveFormGame V H A I)
    (a : H × A) : ℚ :=
  (qsum (compiledInformationSets g) (fun h =>
    information_set_action_mask g h a * information_set_action_counts g h))⁻¹

/-- `_information_set_node_mask = _information_set_action_mask @
_action_node_mask` (computed in `_setup_average_strategy_profile`). -/
def information_set_node_mask (g : FiniteExtensiveFormGame V H A I) (h : H)
    (v : V) : ℚ :=
  qsum (compiledActions g)
    (fun a => information_set_action_mask g h a * action_node_mask g a v)

/-- `_initial_expected_payoffs`: the terminal payoff table, zero
elsewhere. -/
def initial_expected_payoffs (g : FiniteExtensiveFormGame V H A I) (v : V)
    (i : I) : ℚ :=
  match fget g.payoffs v with
  | none => 0
  | some row => (fget row i).getD 0

/-- `_initial_excepted_reach_probabilities`: the row of the initial node is
all ones, every other entry zero. -/
def initial_excepted_reach_probabilities (g : FiniteExtensiveFormGame V H A I)
    (v : V) (_i : I) : ℚ :=
  if v = g.initial_node then 1 else 0

end CFRM

/-- The full solver state: the game, the compiled index key lists and
tensors of `_setup_indices` / `_setup_tensors` / `_setup_iteration`, and
the per-iteration buffers the `_calculate_*` methods overwrite.  Fields the
Python dataclass leaves unset until the first `iterate()` call are
initialised to zero functions by `CFRM.setup`; no theorem reads them before
they are overwritten. -/
structure CFRState (V H A I : Type) where
  game : FiniteExtensiveFormGame V H A I
  nodes : List V
  information_sets : List H
  actions : List (H × A)
  players : List I
  graph : V → V → ℚ
  level_graphs : List (V → V → ℚ)
  action_node_mask : (H × A) → V → ℚ
  information_set_action_mask : H → (H × A) → ℚ
  node_player_mask : V → I → Bool
  nature_strategies : V → ℚ
  strategy_profile : (H × A) → ℚ
  default_strategy_profile : (H × A) → ℚ
  iteration_count : ℕ
  initial_expected_payoffs : V → I → ℚ
  expected_payoffs : V → I → ℚ
  strategies : V → ℚ
  excepted_strategies : V → I → ℚ
  initial_excepted_reach_probabilities : V → I → ℚ
  excepted_reach_probabilities : V → I → ℚ
  counterfactual_reach_probability_terms : V → ℚ
  information_set_node_mask : H → V → ℚ
  information_set_action_counts : H → ℚ
  counterfactual_reach_probabilities : H → ℚ
  counterfactual_reach_probability_sums : H → ℚ
  average_strategy_profile : (H × A) → ℚ
  regrets : V → ℚ
  instantaneous_counterfactual_regrets : (H × A) → ℚ
  average_counterfactual_regrets : (H × A) → ℚ
  clipped_average_counterfactual_regrets : (H × A) → ℚ

namespace CFRM

variable {V H A I : Type} [DecidableEq V] [DecidableEq H] [DecidableEq A] [DecidableEq I]

/-- `_setup`: index compilation, tensor setup and iteration-state setup,
producing a `Ready` solver state. -/
def setup (g : FiniteExtensiveFormGame V H A I) : CFRState V H A I :=
  let levels := (bfsLevels g (g.nodes.length + 1) [g.initial_node]).getD []
  { game := g
    nodes := g.nodes
    information_sets := compiledInformationSets g
    actions := compiledActions g
    players := compiledPlayers g
    graph := edgeMat levels.flatten
    level_graphs := (levels.dropLast).map edgeMat
    action_node_mask := action_node_mask g
    information_set_action_mask := information_set_action_mask g
    node_player_mask := node_player_mask g
    nature_strategies := nature_strategies g
    strategy_profile := initial_strategy_profile g
    default_strategy_profile := initial_strategy_profile g
    iteration_count := 0
    initial_expected_payoffs := initial_expected_payoffs g
    expected_payoffs := fun _ _ => 0
    strategies := fun _ => 0
    excepted_strategies := fun _ _ => 0
    initial_excepted_reach_probabilities := initial_excepted_reach_probabilities g
    excepted_reach_probabilities := fun _ _ => 0
    counterfactual_reach_probability_terms := fun _ => 0
    information_set_node_mask := information_set_node_mask g
    information_set_action_counts := information_set_action_counts g
    counterfactual_reach_probabilities := fun _ => 0
    counterfactual_reach_probability_sums := fun _ => 0
    average_strategy_profile := fun _ => 0
    regrets := fun _ => 0
    instantaneous_counterfactual_regrets := fun _ => 0
    average_counterfactual_regrets := fun _ => 0
    clipped_average_counterfactual_regrets := fun _ => 0 }

/-- `get_average_strategy`: look the pair up in the compiled action index
(`none` renders the `KeyError` on an uncompiled pair) and read the average
strategy profile there. -/
def get_average_strategy (s : CFRState V H A I) (h : H) (act : A) : Option ℚ :=
  if (h, act) ∈ s.actions then some (s.average_strategy_profile (h, act))
  else none

/-- Step 1 of `iterate`, `_calculate_strategies`:
`(action_node_mask.T @ strategy_profile).ravel() + nature_strategies`. -/
def strategiesCalc (s : CFRState V H A I) : V → ℚ :=
  fun v =>
    qsum s.actions (fun a => s.action_node_mask a v * s.strategy_profile a)
      + s.nature_strategies v

def calculate_strategies (s : CFRState V H A I) : CFRState V H A I :=
  { s with strategies := strategiesCalc s }

/-- Step 2, `_calculate_expected_payoffs`: starting from the terminal
payoff table, for each level graph from deepest to shallowest accumulate
`(level_graph.multiply(strategies)) @ expected_payoffs`. -/
def expectedPayoffsCalc (s : CFRState V H A I) : V → I → ℚ :=
  s.level_graphs.reverse.foldl
    (fun ep lg => fun v i =>
      ep v i + qsum s.nodes (fun w => lg v w * s.strategies w * ep w i))
    s.initial_expected_payoffs

def calculate_expected_payoffs (s : CFRState V H A I) : CFRState V H A I :=
  { s with expected_payoffs := expectedPayoffsCalc s }

/-- Step 3, part 1: the counterfactual strategy tensor — the broadcast
strategies with entries forced to 1 where the node-player mask holds. -/
def exceptedStrategiesCalc (s : CFRState V H A I) : V → I → ℚ :=
  fun v i => if s.node_player_mask v i then 1 else s.strategies v

/-- Step 3, part 2: level-by-level forward propagation
`reach += (level_graph.T @ reach) * excepted_strategies`. -/
def exceptedReachCalc (s : CFRState V H A I) (es : V → I → ℚ) : V → I → ℚ :=
  s.level_graphs.foldl
    (fun r lg => fun v i =>
      r v i + (qsum s.nodes (fun u => lg u v * r u i)) * es v i)
    s.initial_excepted_reach_probabilities

def calculate_excepted_reach_probabilities (s : CFRState V H A I) :
    CFRState V H A I :=
  let es := exceptedStrategiesCalc s
  { s with excepted_strategies := es
           excepted_reach_probabilities := exceptedReachCalc s es }

/-- Step 4, `_calculate_counterfactual_reach_probability_terms`:
`(node_player_mask * excepted_reach_probabilities).sum(1)`. -/
def termsCalc (s : CFRState V H A I) : V → ℚ :=
  fun v => qsum s.players (fun i =>
    (if s.node_player_mask v i then (1 : ℚ) else 0)
      * s.excepted_reach_probabilities v i)

def calculate_counterfactual_reach_probability_terms (s : CFRState V H A I) :
    CFRState V H A I :=
  { s with counterfactual_reach_probability_terms := termsCalc s }

/-- Step 5, part 1: the per-information-set counterfactual reach
`(information_set_node_mask @ terms) / information_set_action_counts`. -/
def crCalc (s : CFRState V H A I) : H → ℚ :=
  fun h =>
    (qsum s.nodes (fun v =>
      s.information_set_node_mask h v
        * s.counterfactual_reach_probability_terms v))
      / s.information_set_action_counts h

/-- Step 5, part 2: the streaming average-strategy update
`avg += (mask.T @ (cr / sums)) * (strategy_profile - avg)`, with `sums`
already incremented by `cr`.  (Over floats `cr/sums` is NaN when both are
zero; over `ℚ` the quotient is 0.  The positivity hypotheses of the
theorems below exclude that case.) -/
def avgCalc (s : CFRState V H A I) (cr sums2 : H → ℚ) : (H × A) → ℚ :=
  fun a =>
    s.average_strategy_profile a
      + (qsum s.information_sets
          (fun h => s.information_set_action_mask h a * (cr h / sums2 h)))
        * (s.strategy_profile a - s.average_strategy_profile a)

def calculate_average_strategy_profile (s : CFRState V H A I) :
    CFRState V H A I :=
  let cr := crCalc s
  let sums2 := fun h => s.counterfactual_reach_probability_sums h + cr h
  { s with counterfactual_reach_probabilities := cr
           counterfactual_reach_probability_sums := sums2
           average_strategy_profile := avgCalc s cr sums2 }

/-- Step 6, part 1: per-node instantaneous regret
`(node_player_mask * (expected_payoffs - graph.T @ expected_payoffs)).sum(1)`. -/
def regretsCalc (s : CFRState V H A I) : V → ℚ :=
  fun v => qsum s.players (fun i =>
    (if s.node_player_mask v i then (1 : ℚ) else 0)
      * (s.expected_payoffs v i
          - qsum s.nodes (fun u => s.graph u v * s.expected_payoffs u i)))

/-- Step 6, part 2: per-compiled-action instantaneous counterfactual regret
`action_node_mask @ (terms * regrets)`. -/
def icrCalc (s : CFRState V H A I) (regs : V → ℚ) : (H × A) → ℚ :=
  fun a => qsum s.nodes (fun v =>
    s.action_node_mask a v
      * (s.counterfactual_reach_probability_terms v * regs v))

/-- Step 6, part 3: the running mean update
`acr += (icr - acr) / (iteration_count + 1)`. -/
def acrCalc (s : CFRState V H A I) (icr : (H × A) → ℚ) : (H × A) → ℚ :=
  fun a =>
    s.average_counterfactual_regrets a
      + (icr a - s.average_counterfactual_regrets a)
        / (s.iteration_count + 1)

/-- Step 6, part 4: `acr.clip(0)`. -/
def clipCalc (acr : (H × A) → ℚ) : (H × A) → ℚ :=
  fun a => max (acr a) 0

/-- Step 6, part 5: the regret-matching denominator
`mask.T @ (mask @ clipped)`. -/
def nextStrategyDenom (s : CFRState V H A I) (clipped : (H × A) → ℚ) :
    (H × A) → ℚ :=
  fun a => qsum s.information_sets (fun h =>
    s.information_set_action_mask h a
      * qsum s.actions (fun b => s.information_set_action_mask h b * clipped b))

/-- Step 6, part 6: `clipped / denom` with the NaN guard
`cp.where(cp.isnan(strategy), default_strategy_profile, strategy)`.  Over
floats the entry is NaN exactly when `clipped a = 0` and `denom a = 0`; on
any state compiled from a validated game `clipped a > 0` forces
`denom a > 0` (the mask column of a compiled action is nonzero at its
owning information set), so the isnan guard is exactly the
zero-denominator test embedded here. -/
def nextStrategyProfileCalc (s : CFRState V H A I)
    (clipped denom : (H × A) → ℚ) : (H × A) → ℚ :=
  fun a =>
    if denom a = 0 then s.default_strategy_profile a else clipped a / denom a

def calculate_next_strategy_profile (s : CFRState V H A I) : CFRState V H A I :=
  let regs := regretsCalc s
  let icr := icrCalc s regs
  let acr := acrCalc s icr
  let clipped := clipCalc acr
  let denom := nextStrategyDenom s clipped
  { s with regrets := regs
           instantaneous_counterfactual_regrets := icr
           average_counterfactual_regrets := acr
           clipped_average_counterfactual_regrets := clipped
           strategy_profile := nextStrategyProfileCalc s clipped denom }

/-- `iterate()`: the six `_calculate_*` steps in source order, then the
iteration counter advance. -/
def iterate (s : CFRState V H A I) : CFRState V H A I :=
  let s1 := calculate_strategies s
  let s2 := calculate_expected_payoffs s1
  let s3 := calculate_excepted_reach_probabilities s2
  let s4 := calculate_counterfactual_reach_probability_terms s3
  let s5 := calculate_average_strategy_profile s4
  let s6 := calculate_next_strategy_profile s5
  { s6 with iteration_count := s6.iteration_count + 1 }

end CFRM

/-! The sequence-form regret minimizers of `gpugt/regret_minimizers.py`.
The tree-form sequential decision process is an externally supplied
representation (it is produced outside the core); the solver consumes its
`decision_points`, per-point `actions` and `sequences` lists, and its
`behavioral_to_sequence_form` / `counterfactual_utilities` /
`behavioral_uniform_strategy` transforms.  The fields inherited from the
external `noregret` base class (`previous_strategy`, `average_strategy`,
`previous_utility`, `cumulative_utility`, `strategies`) never touch the
counterfactual-regret vector or the behavioral strategies and are omitted
from the state. -/

/-- The externally supplied tree-form sequential decision process: ordered
decision points, per-point available actions, and the ordered sequence
list whose index 0 (`none`) is the empty sequence. -/
structure TreeFormSequentialDecisionProcess (J A2 : Type) where
  decision_points : List J
  actions : List (J × List A2)
  sequences : List (Option (J × A2))

namespace SFRM

variable {J A2 : Type} [DecidableEq J] [DecidableEq A2]

/-- The nonempty sequences, the keys of every vector of dimension
`len(sequences) - 1`. -/
def seqKeys (t : TreeFormSequentialDecisionProcess J A2) : List (J × A2) :=
  t.sequences.filterMap id

/-- The sparse 0/1 `mask` built in `__post_init__`:
`mask[node, sequences.index((j, a)) - 1] = 1` for each decision point `j`
(row key) and each action `a` available at `j`; every other entry is 0.
(A pair absent from `sequences`, on which Python's `.index` would raise,
never arises for a well-formed process.) -/
def sfMask (t : TreeFormSequentialDecisionProcess J A2) (j : J) (x : J × A2) :
    ℚ :=
  if j ∈ t.decision_points ∧ x.1 = j ∧ x.2 ∈ (fget t.actions j).getD [] then 1
  else 0

/-- The sequence-form CFR solver state: the process, the accumulated
counterfactual regrets, and the behavioral strategies (the uniform one
captured from `tfsdp.behavioral_uniform_strategy()` at setup, and the
current one). -/
structure SequenceFormCFRState (J A2 : Type) where
  tfsdp : TreeFormSequentialDecisionProcess J A2
  counterfactual_regrets : (J × A2) → ℚ
  behavioral_uniform_strategy : (J × A2) → ℚ
  behavioral_strategy : (J × A2) → ℚ

/-- The vanilla `_floored_counterfactual_regrets` property:
`counterfactual_regrets.clip(0)`, flooring at read time. -/
def floored_counterfactual_regrets (s : SequenceFormCFRState J A2) :
    (J × A2) → ℚ :=
  fun x => max (s.counterfactual_regrets x) 0

/-- The CFR+ override of `_floored_counterfactual_regrets`: the stored
vector, read back without further flooring. -/
def floored_counterfactual_regrets_plus (s : SequenceFormCFRState J A2) :
    (J × A2) → ℚ :=
  s.counterfactual_regrets

/-- The regret-matching denominator of `next_strategy`:
`mask.T @ (mask @ numerator)`. -/
def sfNextStrategyDenom (s : SequenceFormCFRState J A2)
    (numerator : (J × A2) → ℚ) : (J × A2) → ℚ :=
  fun x => qsum s.tfsdp.decision_points (fun j =>
    sfMask s.tfsdp j x
      * qsum (seqKeys s.tfsdp) (fun y => sfMask s.tfsdp j y * numerator y))

/-- The behavioral-strategy update of `next_strategy`, shared verbatim by
the vanilla and plus variants (only the `numerator` they feed it differs):
`cp.where(denominator == 0, behavioral_uniform_strategy, numerator /
normalized_denominator)`, where `normalized_denominator` replaces zero
entries by 1 only to make the unused quotient well defined. -/
def sfNextStrategyBehavioral (s : SequenceFormCFRState J A2)
    (numerator : (J × A2) → ℚ) : (J × A2) → ℚ :=
  fun x =>
    if sfNextStrategyDenom s numerator x = 0 then
      s.behavioral_uniform_strategy x
    else numerator x / sfNextStrategyDenom s numerator x

/-- `next_strategy` of the vanilla solver: regret matching on the
read-time-floored regrets.  (The sequence-form vector it returns is the
external `behavioral_to_sequence_form` transform of this behavioral
strategy and is not modelled.) -/
def next_strategy (s : SequenceFormCFRState J A2) : SequenceFormCFRState J A2 :=
  { s with behavioral_strategy :=
      sfNextStrategyBehavioral s (floored_counterfactual_regrets s) }

/-- `next_strategy` as inherited by the CFR+ solver: the identical rule fed
with the unfloored stored regrets. -/
def next_strategy_plus (s : SequenceFormCFRState J A2) :
    SequenceFormCFRState J A2 :=
  { s with behavioral_strategy :=
      sfNextStrategyBehavioral s (floored_counterfactual_regrets_plus s) }

/-- The regret increment of `observe_utility`:
`counterfactual_utilities - mask.T @ (mask @ (behavioral_strategy *
counterfactual_utilities))`, with `counterfactual_utilities` (the output of
the external `tfsdp.counterfactual_utilities(behavioral_strategy, utility)`
transform) taken as an input vector. -/
def sfRegretDelta (s : SequenceFormCFRState J A2) (cfu : (J × A2) → ℚ) :
    (J × A2) → ℚ :=
  fun x => cfu x - qsum s.tfsdp.decision_points (fun j =>
    sfMask s.tfsdp j x
      * qsum (seqKeys s.tfsdp)
          (fun y => sfMask s.tfsdp j y * (s.behavioral_strategy y * cfu y)))

/-- The vanilla `observe_utility`: accumulate the increment, storing the
unclipped sum. -/
def observe_utility (s : SequenceFormCFRState J A2) (cfu : (J × A2) → ℚ) :
    SequenceFormCFRState J A2 :=
  { s with counterfactual_regrets :=
      fun x => s.counterfactual_regrets x + sfRegretDelta s cfu x }

/-- The CFR+ `observe_utility`: the vanilla accumulation followed by the
immediate `counterfactual_regrets.clip(0)`. -/
def observe_utility_plus (s : SequenceFormCFRState J A2)
    (cfu : (J × A2) → ℚ) : SequenceFormCFRState J A2 :=
  let s2 := observe_utility s cfu
  { s2 with counterfactual_regrets := fun x => max (s2.counterfactual_regrets x) 0 }

end SFRM

namespace BestResponse

/-! The exact best-response oracle of `gpugt/algorithms/best_response.py`.
The `counterfactual_reach_probabilities` table filled by `_dfs` and the
memoized `get_expected_payoff` oracle are taken as function parameters
`reach` and `ep`: the claims below concern the action-selection rule of
`get_best_action`, which reads both only pointwise. -/

variable {V H A I : Type} [DecidableEq V] [DecidableEq H] [DecidableEq A] [DecidableEq I]

/-- `BestResponse.nodes[information_set]`: the decision nodes of the
information set, collected in `game.nodes` order by `__post_init__`. -/
def nodesOf (g : FiniteExtensiveFormGame V H A I) (h : H) : List V :=
  g.nodes.filter (fun v =>
    decide (v ∈ g.decision_nodes)
      && decide (fget g.information_partition v = some h))

/-- `BestResponse.successors[(node, action)]`: the non-initial node whose
predecessor is `node` and whose incoming action is `action`.  (The Python
dict keeps the last of duplicate entries; a validated game has at most one
such node, so the first-hit search agrees.) -/
def successorOf (g : FiniteExtensiveFormGame V H A I) (v : V) (a : A) :
    Option V :=
  g.nodes.find? (fun c =>
    decide (c ∈ g.non_initial_nodes)
      && decide (g.predecessors c = some v)
      && decide (fget g.action_partition c = some a))

/-- The per-action score accumulated by `get_best_action`'s node loop
(`expected_payoffs[i] += weight * get_expected_payoff(successors[node,
action])`), commuting the node-outer action-inner loops to a per-action
fold over the nodes.  A missing successor (impossible on a validated game,
where Python would raise `KeyError`) contributes 0. -/
def score (g : FiniteExtensiveFormGame V H A I) (reach ep : V → ℚ) (h : H)
    (a : A) : ℚ :=
  (nodesOf g h).foldl
    (fun acc v => acc + reach v * (match successorOf g v a with
      | some c => ep c
      | none => 0)) 0

/-- Python `max` on a list (`max([])` raises; the bottom default 0 is never
reached under the nonemptiness hypotheses of the theorems). -/
def pyMax (l : List ℚ) : ℚ :=
  (l.maximum).unbot' 0

/-- `get_best_action`: after `_verify_information_set` (the `ValueError`
for an information set the responder does not own is rendered as `none`),
return `actions[expected_payoffs.index(max(expected_payoffs))]` — the
first action of the information set's declared action order attaining the
maximal score. -/
def get_best_action (g : FiniteExtensiveFormGame V H A I) (player : I)
    (reach ep : V → ℚ) (h : H) : Option A :=
  if fget g.player_partition h = some player then
    let actions := g.available_actions h
    let scores := actions.map (score g reach ep h)
    actions.get? (scores.indexOf (pyMax scores))
  else none

end BestResponse

/-! Concrete games and processes used as witnesses and counterexamples. -/

/-- A three-node game with a single rational player: root 0 with leaf
children 1 and 2, one information set 10 with actions 5 and 6, player 7. -/
def gOne : FiniteExtensiveFormGame ℕ ℕ ℕ ℕ :=
  { game_tree :=
      { vertices := [0, 1, 2], root := 0, leaves := [1, 2]
        parents := [(1, 0), (2, 0)] }
    information_sets := [10]
    information_partition := [(0, 10)]
    actions := [5, 6]
    action_partition := [(1, 5), (2, 6)]
    players := [7]
    nature := none
    player_partition := [(10, 7)]
    nature_probabilities := []
    payoffs := [(1, [(7, 1)]), (2, [(7, 0)])] }

/-- The same tree with nature owning the single information set, and
chance probabilities 1/2 and 2/5 — summing to 9/10, not 1. -/
def gNature : FiniteExtensiveFormGame ℕ ℕ ℕ ℕ :=
  { game_tree :=
      { vertices := [0, 1, 2], root := 0, leaves := [1, 2]
        parents := [(1, 0), (2, 0)] }
    information_sets := [10]
    information_partition := [(0, 10)]
    actions := [5, 6]
    action_partition := [(1, 5), (2, 6)]
    players := [7]
    nature := some 7
    player_partition := [(10, 7)]
    nature_probabilities := [(10, [(5, 1/2), (6, 2/5)])]
    payoffs := [(1, []), (2, [])] }

/-- `gOne` with an empty information partition: the partition's domain
omits the decision node 0. -/
def gMissingPartition : FiniteExtensiveFormGame ℕ ℕ ℕ ℕ :=
  { gOne with information_partition := [] }

/-- A two-player zero-sum game for the best-response witness: root 0 owned
by player 7 (information set 10, actions 5 and 6), both children internal
nodes owned by player 8 (information set 11, actions 5 and 6), four
leaves. -/
def gTwo : FiniteExtensiveFormGame ℕ ℕ ℕ ℕ :=
  { game_tree :=
      { vertices := [0, 1, 2, 3, 4, 5, 6], root := 0, leaves := [3, 4, 5, 6]
        parents := [(1, 0), (2, 0), (3, 1), (4, 1), (5, 2), (6, 2)] }
    information_sets := [10, 11]
    information_partition := [(0, 10), (1, 11), (2, 11)]
    actions := [5, 6]
    action_partition := [(1, 5), (2, 6), (3, 5), (4, 6), (5, 5), (6, 6)]
    players := [7, 8]
    nature := none
    player_partition := [(10, 7), (11, 8)]
    nature_probabilities := []
    payoffs := [(3, [(7, 1), (8, -1)]), (4, [(7, 0), (8, 0)]),
                (5, [(7, 2), (8, -2)]), (6, [(7, -1), (8, 1)])] }

/-- A one-decision-point tree-form sequential decision process with two
sequences. -/
def tfsdpOne : TreeFormSequentialDecisionProcess ℕ ℕ :=
  { decision_points := [0]
    actions := [(0, [1, 2])]
    sequences := [none, some (0, 1), some (0, 2)] }

/-- A sequence-form solver state over `tfsdpOne`. -/
def sfOne : SFRM.SequenceFormCFRState ℕ ℕ :=
  { tfsdp := tfsdpOne
    counterfactual_regrets := fun x => if x = (0, 1) then 3 else 0
    behavioral_uniform_strategy := fun _ => 1/2
    behavioral_strategy := fun _ => 1/2 }

/-- The compiled fields a solver state shares with `setup g`: the claims
about `iterate` steps are stated for any state whose compiled index lists,
masks, counts and default profile are those `setup` builds (every state
reachable from `setup g` qualifies, since `iterate` rewrites none of
them). -/
def CFRM.compiledCompatible {V H A I : Type}
    [DecidableEq V] [DecidableEq H] [DecidableEq A] [DecidableEq I]
    (g : FiniteExtensiveFormGame V H A I) (s : CFRState V H A I) : Prop :=
  s.information_sets = CFRM.compiledInformationSets g
  ∧ s.actions = CFRM.compiledActions g
  ∧ s.information_set_action_mask = CFRM.information_set_action_mask g
  ∧ s.information_set_action_counts = CFRM.information_set_action_counts g
  ∧ s.default_strategy_profile = CFRM.initial_strategy_profile g

/-! ### Helper lemmas: list sums, set tests, deduplication, lookups. -/

theorem qsum_nil {T : Type} (f : T → ℚ) : qsum ([] : List T) f = 0 := rfl

theorem qsum_cons {T : Type} (a : T) (l : List T) (f : T → ℚ) :
    qsum (a :: l) f = f a + qsum l f := by
  simp [qsum]

theorem qsum_append {T : Type} (l₁ l₂ : List T) (f : T → ℚ) :
    qsum (l₁ ++ l₂) f = qsum l₁ f + qsum l₂ f := by
  simp [qsum]

theorem qsum_congr {T : Type} {l : List T} {f g : T → ℚ}
    (h : ∀ x ∈ l, f x = g x) : qsum l f = qsum l g := by
  induction l with
  | nil => rfl
  | cons a t ih =>
    rw [qsum_cons, qsum_cons, h a (by simp),
      ih (fun x hx => h x (by simp [hx]))]

theorem qsum_add {T : Type} (l : List T) (f g : T → ℚ) :
    qsum l (fun x => f x + g x) = qsum l f + qsum l g := by
  induction l with
  | nil => simp [qsum_nil]
  | cons a t ih => rw [qsum_cons, qsum_cons, qsum_cons, ih]; ring

theorem qsum_mul_right {T : Type} (l : List T) (f : T → ℚ) (c : ℚ) :
    qsum l (fun x => f x * c) = qsum l f * c := by
  induction l with
  | nil => simp [qsum_nil]
  | cons a t ih => rw [qsum_cons, qsum_cons, ih]; ring

theorem qsum_div_const {T : Type} (l : List T) (f : T → ℚ) (c : ℚ) :
    qsum l (fun x => f x / c) = qsum l f / c := by
  simp only [div_eq_mul_inv]
  exact qsum_mul_right l f c⁻¹

theorem qsum_flatMap {T U : Type} (l : List T) (g : T → List U) (f : U → ℚ) :
    qsum (l.flatMap g) f = qsum l (fun x => qsum (g x) f) := by
  induction l with
  | nil => rfl
  | cons a t ih => rw [List.flatMap_cons, qsum_append, qsum_cons, ih]

theorem qsum_map {T U : Type} (l : List T) (g : T → U) (f : U → ℚ) :
    qsum (l.map g) f = qsum l (fun x => f (g x)) := by
  induction l with
  | nil => rfl
  | cons a t ih => rw [List.map_cons, qsum_cons, qsum_cons, ih]

theorem qsum_const {T : Type} (l : List T) (c : ℚ) :
    qsum l (fun _ => c) = l.length * c := by
  induction l with
  | nil => simp [qsum_nil]
  | cons a t ih => rw [qsum_cons, ih, List.length_cons]; push_cast; ring

theorem qsum_eq_zero {T : Type} {l : List T} {f : T → ℚ}
    (h : ∀ x ∈ l, f x = 0) : qsum l f = 0 := by
  rw [qsum_congr h, qsum_const, mul_zero]

theorem qsum_eq_single {T : Type} {l : List T} {f : T → ℚ} {x : T}
    (hnd : l.Nodup) (hx : x ∈ l) (h0 : ∀ y ∈ l, y ≠ x → f y = 0) :
    qsum l f = f x := by
  induction l with
  | nil => cases hx
  | cons a t ih =>
    rw [qsum_cons]
    rcases List.mem_cons.mp hx with rfl | hxt
    · rw [qsum_eq_zero (fun y hy => h0 y (List.mem_cons_of_mem _ hy)
        (fun hyx => (List.nodup_cons.mp hnd).1 (hyx ▸ hy))), add_zero]
    · rw [h0 a (List.mem_cons_self a t)
        (fun hax => (List.nodup_cons.mp hnd).1 (hax ▸ hxt)),
        ih (List.nodup_cons.mp hnd).2 hxt
          (fun y hy => h0 y (List.mem_cons_of_mem _ hy)), zero_add]

theorem qsum_perm {T : Type} {l l' : List T} (h : List.Perm l l')
    (f : T → ℚ) : qsum l f = qsum l' f :=
  List.Perm.sum_eq (List.Perm.map f h)

theorem eqSetB_iff {T : Type} [DecidableEq T] (l₁ l₂ : List T) :
    eqSetB l₁ l₂ = true ↔ ∀ x, x ∈ l₁ ↔ x ∈ l₂ := by
  simp only [eqSetB, Bool.and_eq_true, List.all_eq_true, decide_eq_true_eq]
  constructor
  · rintro ⟨h₁, h₂⟩ x
    exact ⟨fun hx => h₁ x hx, fun hx => h₂ x hx⟩
  · intro h
    exact ⟨fun x hx => (h x).mp hx, fun x hx => (h x).mpr hx⟩

theorem subSetB_iff {T : Type} [DecidableEq T] (l₁ l₂ : List T) :
    subSetB l₁ l₂ = true ↔ ∀ x ∈ l₁, x ∈ l₂ := by
  simp [subSetB]

theorem mem_odedup {T : Type} [DecidableEq T] (l : List T) (x : T) :
    x ∈ odedup l ↔ x ∈ l := by
  induction l with
  | nil => simp [odedup]
  | cons a t ih =>
    simp only [odedup, List.mem_cons, List.mem_filter, decide_eq_true_eq, ih]
    by_cases hx : x = a
    · simp [hx]
    · simp [hx]

theorem odedup_nodup {T : Type} [DecidableEq T] (l : List T) :
    (odedup l).Nodup := by
  induction l with
  | nil => simp [odedup]
  | cons a t ih =>
    rw [odedup, List.nodup_cons]
    constructor
    · intro hmem
      have h2 := (List.mem_filter.mp hmem).2
      simp at h2
    · exact List.Nodup.filter _ ih

theorem fget_eq_some_mem {K B : Type} [DecidableEq K] {l : List (K × B)}
    {k : K} {b : B} (h : fget l k = some b) : (k, b) ∈ l := by
  simp only [fget, Option.map_eq_some'] at h
  obtain ⟨p, hp, hb⟩ := h
  have hmem := List.mem_of_find?_eq_some hp
  have hkey := List.find?_some hp
  simp only [decide_eq_true_eq] at hkey
  have hpkb : p = (k, b) := Prod.ext_iff.mpr ⟨hkey, hb⟩
  exact hpkb ▸ hmem

theorem fget_mem_keys {K B : Type} [DecidableEq K] {l : List (K × B)}
    {k : K} {b : B} (h : fget l k = some b) : k ∈ l.map Prod.fst := by
  exact List.mem_map.mpr ⟨(k, b), fget_eq_some_mem h, rfl⟩

theorem fget_eq_none_iff {K B : Type} [DecidableEq K] (l : List (K × B))
    (k : K) : fget l k = none ↔ k ∉ l.map Prod.fst := by
  simp only [fget, Option.map_eq_none', List.find?_eq_none,
    decide_eq_true_eq, List.mem_map]
  constructor
  · rintro h ⟨p, hp, rfl⟩
    exact h p hp rfl
  · rintro h p hp rfl
    exact h ⟨p, hp, rfl⟩

theorem fget_isSome_of_mem_keys {K B : Type} [DecidableEq K]
    {l : List (K × B)} {k : K} (h : k ∈ l.map Prod.fst) :
    ∃ b, fget l k = some b := by
  rcases ho : fget l k with _ | b
  · exact absurd h ((fget_eq_none_iff l k).mp ho)
  · exact ⟨b, rfl⟩

/-! ### Validation-pass characterizations. -/

theorem ite_ok_elim {c : Prop} [Decidable c] {e : String}
    {rest : Except String Unit}
    (h : (if c then Except.error e else rest) = Except.ok ()) :
    ¬ c ∧ rest = Except.ok () := by
  by_cases hc : c
  · rw [if_pos hc] at h
    exact absurd h (by simp)
  · exact ⟨hc, by rwa [if_neg hc] at h⟩

theorem treePostInit_ok_iff {V : Type} [DecidableEq V]
    (t : FiniteTree V) :
    t.postInit = Except.ok () ↔
      t.root ∈ t.vertices
      ∧ subSetB t.leaves t.vertices = true
      ∧ eqSetB (t.parents.map Prod.fst) t.non_roots = true
      ∧ eqSetB (t.parents.map Prod.snd) t.internal_vertices = true := by
  unfold FiniteTree.postInit
  constructor
  · intro hok
    obtain ⟨n1, hok⟩ := ite_ok_elim hok
    obtain ⟨n2, hok⟩ := ite_ok_elim hok
    obtain ⟨n3, hok⟩ := ite_ok_elim hok
    obtain ⟨n4, _⟩ := ite_ok_elim hok
    exact ⟨not_not.mp (by simpa using n1), not_not.mp n2, not_not.mp n3,
      not_not.mp n4⟩
  · rintro ⟨h1, h2, h3, h4⟩
    rw [if_neg (by simpa using h1), if_neg (not_not_intro h2),
      if_neg (not_not_intro h3), if_neg (not_not_intro h4)]

theorem gamePostInit_ok_iff {V H A I : Type}
    [DecidableEq V] [DecidableEq H] [DecidableEq A] [DecidableEq I]
    (g : FiniteExtensiveFormGame V H A I) :
    g.postInit = Except.ok () ↔
      eqSetB (g.information_partition.map Prod.fst) g.decision_nodes = true
      ∧ subSetB (g.information_partition.map Prod.snd) g.information_sets = true
      ∧ eqSetB (g.action_partition.map Prod.fst) g.non_initial_nodes = true
      ∧ subSetB (g.action_partition.map Prod.snd) g.actions = true
      ∧ (match g.nature with
         | some nat => decide (nat ∉ g.players)
         | none => false) = false
      ∧ eqSetB (g.player_partition.map Prod.fst) g.information_sets = true
      ∧ subSetB (g.player_partition.map Prod.snd) g.players = true
      ∧ eqSetB (g.nature_probabilities.map Prod.fst)
          g.nature_information_sets = true
      ∧ eqSetB (g.payoffs.map Prod.fst) g.terminal_nodes = true
      ∧ (g.decision_nodes.all (fun v =>
          match fget g.information_partition v with
          | none => false
          | some h =>
            decide (Multiset.ofList ((g.available_actions h).map some)
              = Multiset.ofList
                  ((g.successors v).map (fget g.action_partition))))) = true
      ∧ (g.nature_information_sets.all (fun h =>
          match fget g.nature_probabilities h with
          | none => false
          | some ps => eqSetB (ps.map Prod.fst) (g.available_actions h))) = true
      ∧ ((g.payoffs.map Prod.snd).all (fun row =>
          eqSetB (row.map Prod.fst)
            (g.players.filter (fun p => decide (g.nature ≠ some p))))) = true := by
  unfold FiniteExtensiveFormGame.postInit
  constructor
  · intro hok
    obtain ⟨n1, hok⟩ := ite_ok_elim hok
    obtain ⟨n2, hok⟩ := ite_ok_elim hok
    obtain ⟨n3, hok⟩ := ite_ok_elim hok
    obtain ⟨n4, hok⟩ := ite_ok_elim hok
    obtain ⟨n5, hok⟩ := ite_ok_elim hok
    obtain ⟨n6, hok⟩ := ite_ok_elim hok
    obtain ⟨n7, hok⟩ := ite_ok_elim hok
    obtain ⟨n8, hok⟩ := ite_ok_elim hok
    obtain ⟨n9, hok⟩ := ite_ok_elim hok
    obtain ⟨n10, hok⟩ := ite_ok_elim hok
    obtain ⟨n11, hok⟩ := ite_ok_elim hok
    obtain ⟨n12, _⟩ := ite_ok_elim hok
    exact ⟨not_not.mp n1, not_not.mp n2, not_not.mp n3, not_not.mp n4,
      (Bool.not_eq_true _) ▸ n5, not_not.mp n6, not_not.mp n7, not_not.mp n8,
      not_not.mp n9, not_not.mp n10, not_not.mp n11, not_not.mp n12⟩
  · rintro ⟨h1, h2, h3, h4, h5, h6, h7, h8, h9, h10, h11, h12⟩
    rw [if_neg (not_not_intro h1), if_neg (not_not_intro h2),
      if_neg (not_not_intro h3), if_neg (not_not_intro h4),
      if_neg (by rw [h5]; exact Bool.false_ne_true), if_neg (not_not_intro h6),
      if_neg (not_not_intro h7), if_neg (not_not_intro h8),
      if_neg (not_not_intro h9), if_neg (not_not_intro h10),
      if_neg (not_not_intro h11), if_neg (not_not_intro h12)]

/-- Claim C8: an information partition whose key set omits a decision node
makes `FiniteExtensiveFormGame` construction fail with the
structural-validation error `information partition not on decision nodes`
(the first check of `__post_init__`), so no game instance is produced. -/
theorem c8_missing_decision_node_fails {V H A I : Type}
    [DecidableEq V] [DecidableEq H] [DecidableEq A] [DecidableEq I]
    (g : FiniteExtensiveFormGame V H A I) (v : V)
    (hdec : v ∈ g.decision_nodes)
    (hmiss : v ∉ g.information_partition.map Prod.fst) :
    g.postInit = Except.error ("information partition not on decision nodes") := by
  have hne : ¬ (eqSetB (g.information_partition.map Prod.fst)
      g.decision_nodes = true) := by
    intro heq
    exact hmiss (((eqSetB_iff _ _).mp heq v).mpr hdec)
  unfold FiniteExtensiveFormGame.postInit
  rw [if_pos hne]

/-- Witness for C8: `gMissingPartition` omits decision node 0 from its
information partition and construction fails with the structural error. -/
theorem c8_witness :
    (0 ∈ gMissingPartition.decision_nodes
      ∧ 0 ∉ gMissingPartition.information_partition.map Prod.fst)
    ∧ gMissingPartition.postInit
        = Except.error ("information partition not on decision nodes") :=
  ⟨⟨by decide, by decide⟩,
    c8_missing_decision_node_fails gMissingPartition 0 (by decide) (by decide)⟩

/-- Counterexample to claim C4 as stated: `gNature` is a game whose chance
probabilities at its only (nature-owned) information set sum to 9/10 ≠ 1,
yet both tree and game construction succeed — `__post_init__` never
inspects the probability values. -/
theorem c4_counterexample :
    (∃ ps, fget gNature.nature_probabilities 10 = some ps
        ∧ qsum ps Prod.snd = 9/10 ∧ qsum ps Prod.snd ≠ 1)
    ∧ gNature.game_tree.postInit = Except.ok ()
    ∧ gNature.postInit = Except.ok () := by
  refine ⟨⟨[(5, 1/2), (6, 2/5)], rfl, by norm_num [qsum],
    by norm_num [qsum]⟩, rfl, rfl⟩

/-- Claim C4 (amended): construction validates only the
domain/codomain/bijection constraints; the chance probabilities are only
required to be keyed exactly by the available actions of each nature
information set, and no check inspects the probability values, so
construction succeeds whenever the domain checks pass — regardless of the
probability sums. -/
theorem c4_construction_ignores_probability_sums {V H A I : Type}
    [DecidableEq V] [DecidableEq H] [DecidableEq A] [DecidableEq I]
    (g : FiniteExtensiveFormGame V H A I)
    (h1 : eqSetB (g.information_partition.map Prod.fst) g.decision_nodes = true)
    (h2 : subSetB (g.information_partition.map Prod.snd) g.information_sets = true)
    (h3 : eqSetB (g.action_partition.map Prod.fst) g.non_initial_nodes = true)
    (h4 : subSetB (g.action_partition.map Prod.snd) g.actions = true)
    (h5 : (match g.nature with
           | some nat => decide (nat ∉ g.players)
           | none => false) = false)
    (h6 : eqSetB (g.player_partition.map Prod.fst) g.information_sets = true)
    (h7 : subSetB (g.player_partition.map Prod.snd) g.players = true)
    (h8 : eqSetB (g.nature_probabilities.map Prod.fst)
        g.nature_information_sets = true)
    (h9 : eqSetB (g.payoffs.map Prod.fst) g.terminal_nodes = true)
    (h10 : (g.decision_nodes.all (fun v =>
        match fget g.information_partition v with
        | none => false
        | some h =>
          decide (Multiset.ofList ((g.available_actions h).map some)
            = Multiset.ofList
                ((g.successors v).map (fget g.action_partition))))) = true)
    (h11 : (g.nature_information_sets.all (fun h =>
        match fget g.nature_probabilities h with
        | none => false
        | some ps => eqSetB (ps.map Prod.fst) (g.available_actions h))) = true)
    (h12 : ((g.payoffs.map Prod.snd).all (fun row =>
        eqSetB (row.map Prod.fst)
          (g.players.filter (fun p => decide (g.nature ≠ some p))))) = true) :
    g.postInit = Except.ok () :=
  (gamePostInit_ok_iff g).mpr
    ⟨h1, h2, h3, h4, h5, h6, h7, h8, h9, h10, h11, h12⟩

/-- Witness for the amended C4 at `gNature`, whose chance probabilities sum
to 9/10: every domain check passes, so construction succeeds. -/
theorem c4_witness : gNature.postInit = Except.ok () :=
  c4_construction_ignores_probability_sums gNature (by decide) (by decide)
    (by decide) (by decide) (by decide) (by decide) (by decide) (by decide)
    (by decide) (by with_unfolding_all decide) (by decide) (by decide)

set_option maxHeartbeats 2000000 in
/-- Claim C9: one `iterate()` call leaves the game instance and every
compiled tensor unchanged — the index key lists, the adjacency graph, the
level graphs, the action-node mask, the information-set-action mask (and
its row counts), the node-player mask, the nature strategies, the default
uniform strategy profile, the information-set-node mask, and the initial
payoff/reach tables — and advances the iteration counter by one; only the
per-iteration buffers are rewritten. -/
theorem c9_iterate_preserves_compiled_state {V H A I : Type}
    [DecidableEq V] [DecidableEq H] [DecidableEq A] [DecidableEq I]
    (s : CFRState V H A I) :
    (CFRM.iterate s).game = s.game
    ∧ (CFRM.iterate s).nodes = s.nodes
    ∧ (CFRM.iterate s).information_sets = s.information_sets
    ∧ (CFRM.iterate s).actions = s.actions
    ∧ (CFRM.iterate s).players = s.players
    ∧ (CFRM.iterate s).graph = s.graph
    ∧ (CFRM.iterate s).level_graphs = s.level_graphs
    ∧ (CFRM.iterate s).action_node_mask = s.action_node_mask
    ∧ (CFRM.iterate s).information_set_action_mask
        = s.information_set_action_mask
    ∧ (CFRM.iterate s).node_player_mask = s.node_player_mask
    ∧ (CFRM.iterate s).nature_strategies = s.nature_strategies
    ∧ (CFRM.iterate s).default_strategy_profile = s.default_strategy_profile
    ∧ (CFRM.iterate s).initial_expected_payoffs = s.initial_expected_payoffs
    ∧ (CFRM.iterate s).initial_excepted_reach_probabilities
        = s.initial_excepted_reach_probabilities
    ∧ (CFRM.iterate s).information_set_node_mask = s.information_set_node_mask
    ∧ (CFRM.iterate s).information_set_action_counts
        = s.information_set_action_counts
    ∧ (CFRM.iterate s).iteration_count = s.iteration_count + 1 := by
  simp only [CFRM.iterate, CFRM.calculate_strategies,
    CFRM.calculate_expected_payoffs,
    CFRM.calculate_excepted_reach_probabilities,
    CFRM.calculate_counterfactual_reach_probability_terms,
    CFRM.calculate_average_strategy_profile,
    CFRM.calculate_next_strategy_profile, and_self, and_true, true_and]

/-- Claim C6: in the sequence-form solvers, (i) the CFR+ `observe_utility`
leaves an elementwise non-negative regret vector, because (ii) it is the
vanilla accumulation followed by an immediate floor at zero, while
(iii) the vanilla solver stores the unclipped accumulation; (iv) the CFR+
`_floored_counterfactual_regrets` read back by `next_strategy` is the
stored vector with no further flooring, whereas the vanilla one floors at
read time, and (v) both variants derive the next behavioral strategy by
the identical rule `sfNextStrategyBehavioral` applied to their respective
floored vectors. -/
theorem c6_plus_floors_immediately {J A2 : Type} [DecidableEq J]
    [DecidableEq A2] (s : SFRM.SequenceFormCFRState J A2)
    (cfu : (J × A2) → ℚ) :
    (∀ x, 0 ≤ (SFRM.observe_utility_plus s cfu).counterfactual_regrets x)
    ∧ (SFRM.observe_utility_plus s cfu).counterfactual_regrets
        = (fun x =>
            max ((SFRM.observe_utility s cfu).counterfactual_regrets x) 0)
    ∧ (SFRM.observe_utility s cfu).counterfactual_regrets
        = (fun x => s.counterfactual_regrets x + SFRM.sfRegretDelta s cfu x)
    ∧ SFRM.floored_counterfactual_regrets_plus s = s.counterfactual_regrets
    ∧ SFRM.floored_counterfactual_regrets s
        = (fun x => max (s.counterfactual_regrets x) 0)
    ∧ (SFRM.next_strategy_plus s).behavioral_strategy
        = SFRM.sfNextStrategyBehavioral s
            (SFRM.floored_counterfactual_regrets_plus s)
    ∧ (SFRM.next_strategy s).behavioral_strategy
        = SFRM.sfNextStrategyBehavioral s
            (SFRM.floored_counterfactual_regrets s) :=
  ⟨fun _ => le_max_right _ _, rfl, rfl, rfl, rfl, rfl, rfl⟩

/-! ### Structure of the compiled index and masks. -/

theorem mem_compiledActions_iff {V H A I : Type}
    [DecidableEq V] [DecidableEq H] [DecidableEq A] [DecidableEq I]
    (g : FiniteExtensiveFormGame V H A I) (h : H) (a : A) :
    (h, a) ∈ CFRM.compiledActions g ↔
      h ∈ CFRM.compiledInformationSets g ∧ a ∈ g.available_actions h := by
  simp only [CFRM.compiledActions, List.mem_flatMap, List.mem_map]
  constructor
  · rintro ⟨h2, hh2, a2, ha2, heq⟩
    cases heq
    exact ⟨hh2, ha2⟩
  · rintro ⟨hh, ha⟩
    exact ⟨h, hh, a, ha, rfl⟩

theorem flatMap_pairs_nodup {H A : Type} (l : List H) (f : H → List A)
    (hl : l.Nodup) (hf : ∀ h, (f h).Nodup) :
    (l.flatMap (fun h => (f h).map (fun a => (h, a)))).Nodup := by
  induction l with
  | nil => simp
  | cons h t ih =>
    rw [List.flatMap_cons, List.nodup_append]
    rcases List.nodup_cons.mp hl with ⟨hht, htnd⟩
    refine ⟨List.Nodup.map ?_ (hf h), ih htnd, ?_⟩
    · intro a b hab
      injection hab with hab1 hab2
    · intro x hx hx2
      obtain ⟨a, _, rfl⟩ := List.mem_map.mp hx
      obtain ⟨h2, hh2, hy⟩ := List.mem_flatMap.mp hx2
      obtain ⟨b, _, hba⟩ := List.mem_map.mp hy
      injection hba with hba1 hba2
      exact hht (hba1 ▸ hh2)

theorem compiledActions_nodup {V H A I : Type}
    [DecidableEq V] [DecidableEq H] [DecidableEq A] [DecidableEq I]
    (g : FiniteExtensiveFormGame V H A I) (hnd : g.information_sets.Nodup) :
    (CFRM.compiledActions g).Nodup :=
  flatMap_pairs_nodup _ _ (List.Nodup.filter _ hnd) (fun _ => odedup_nodup _)

theorem mem_available_actions_iff {V H A I : Type}
    [DecidableEq V] [DecidableEq H] [DecidableEq A] [DecidableEq I]
    (g : FiniteExtensiveFormGame V H A I) (h : H) (a : A) :
    a ∈ g.available_actions h ↔
      ∃ c ∈ g.non_initial_nodes, ∃ p, g.predecessors c = some p
        ∧ fget g.information_partition p = some h
        ∧ fget g.action_partition c = some a := by
  rw [FiniteExtensiveFormGame.available_actions, mem_odedup, List.mem_filterMap]
  constructor
  · rintro ⟨c, hc, hfc⟩
    refine ⟨c, hc, ?_⟩
    rcases hp : g.predecessors c with _ | p
    · rw [hp, Option.none_bind] at hfc
      cases hfc
    · rw [hp, Option.some_bind] at hfc
      rcases hh : fget g.information_partition p with _ | h2
      · rw [hh, Option.none_bind] at hfc
        cases hfc
      · rw [hh, Option.some_bind] at hfc
        by_cases hh2 : h2 = h
        · subst hh2
          rw [if_pos rfl] at hfc
          exact ⟨p, rfl, hh, hfc⟩
        · rw [if_neg hh2] at hfc
          cases hfc
  · rintro ⟨c, hc, p, hp, hh, ha⟩
    refine ⟨c, hc, ?_⟩
    rw [hp, Option.some_bind, hh, Option.some_bind, if_pos rfl, ha]

theorem nodeCompiledData_shape {V H A I : Type}
    [DecidableEq V] [DecidableEq H] [DecidableEq A] [DecidableEq I]
    {g : FiniteExtensiveFormGame V H A I} {v : V} {d : H × (H × A) × I}
    (hd : CFRM.nodeCompiledData g v = some d) :
    ∃ p act, g.predecessors v = some p
      ∧ fget g.information_partition p = some d.1
      ∧ d.1 ∈ CFRM.compiledInformationSets g
      ∧ fget g.action_partition v = some act
      ∧ d.2.1 = (d.1, act)
      ∧ fget g.player_partition d.1 = some d.2.2 := by
  unfold CFRM.nodeCompiledData at hd
  rcases hp : g.predecessors v with _ | p
  · rw [hp, Option.none_bind] at hd
    cases hd
  rw [hp, Option.some_bind] at hd
  rcases hh : fget g.information_partition p with _ | h
  · rw [hh, Option.none_bind] at hd
    cases hd
  rw [hh, Option.some_bind] at hd
  by_cases hcomp : h ∈ CFRM.compiledInformationSets g
  case neg =>
    rw [if_neg hcomp] at hd
    cases hd
  rw [if_pos hcomp] at hd
  rcases ha : fget g.action_partition v with _ | act
  · rw [ha, Option.none_bind] at hd
    cases hd
  rw [ha, Option.some_bind] at hd
  rcases hi : fget g.player_partition h with _ | i
  · rw [hi, Option.map_none'] at hd
    cases hd
  rw [hi, Option.map_some'] at hd
  cases hd
  exact ⟨p, act, rfl, hh, hcomp, rfl, rfl, hi⟩

theorem nodeCompiledData_of_parts {V H A I : Type}
    [DecidableEq V] [DecidableEq H] [DecidableEq A] [DecidableEq I]
    {g : FiniteExtensiveFormGame V H A I} {v p : V} {h : H} {act : A} {i : I}
    (hp : g.predecessors v = some p)
    (hh : fget g.information_partition p = some h)
    (hcomp : h ∈ CFRM.compiledInformationSets g)
    (ha : fget g.action_partition v = some act)
    (hi : fget g.player_partition h = some i) :
    CFRM.nodeCompiledData g v = some (h, (h, act), i) := by
  unfold CFRM.nodeCompiledData
  rw [hp, Option.some_bind, hh, Option.some_bind, if_pos hcomp, ha,
    Option.some_bind, hi, Option.map_some']

theorem information_set_action_mask_owner {V H A I : Type}
    [DecidableEq V] [DecidableEq H] [DecidableEq A] [DecidableEq I]
    (g : FiniteExtensiveFormGame V H A I) {h2 h : H} {a : A}
    (hne : CFRM.information_set_action_mask g h2 (h, a) ≠ 0) : h2 = h := by
  unfold CFRM.information_set_action_mask at hne
  rcases hany : (g.nodes.any fun v =>
      decide ((CFRM.nodeCompiledData g v).map (fun d => (d.1, d.2.1))
        = some (h2, (h, a)))) with _ | _
  · rw [hany] at hne
    simp at hne
  · obtain ⟨v, _, hv⟩ := List.any_eq_true.mp hany
    rw [decide_eq_true_eq] at hv
    rcases hdata : CFRM.nodeCompiledData g v with _ | d
    · rw [hdata, Option.map_none'] at hv
      cases hv
    · rw [hdata, Option.map_some', Option.some_inj] at hv
      obtain ⟨p, act, _, _, _, _, hpair, _⟩ := nodeCompiledData_shape hdata
      have h1 : d.1 = h2 := congrArg Prod.fst hv
      have h21 : d.2.1 = (h, a) := congrArg Prod.snd hv
      rw [h21, h1] at hpair
      exact (congrArg Prod.fst hpair).symm

theorem compiled_subset_information_sets {V H A I : Type}
    [DecidableEq V] [DecidableEq H] [DecidableEq A] [DecidableEq I]
    {g : FiniteExtensiveFormGame V H A I} {h : H}
    (hc : h ∈ CFRM.compiledInformationSets g) : h ∈ g.information_sets :=
  (List.mem_filter.mp hc).1

theorem compiled_not_nature {V H A I : Type}
    [DecidableEq V] [DecidableEq H] [DecidableEq A] [DecidableEq I]
    {g : FiniteExtensiveFormGame V H A I} {h : H}
    (hc : h ∈ CFRM.compiledInformationSets g) :
    h ∉ g.nature_information_sets := by
  have h2 := (List.mem_filter.mp hc).2
  simpa using h2

theorem non_initial_subset_nodes {V H A I : Type}
    [DecidableEq V] [DecidableEq H] [DecidableEq A] [DecidableEq I]
    {g : FiniteExtensiveFormGame V H A I} {v : V}
    (hv : v ∈ g.non_initial_nodes) : v ∈ g.nodes :=
  (List.mem_filter.mp hv).1

theorem information_set_action_mask_eq_one_iff {V H A I : Type}
    [DecidableEq V] [DecidableEq H] [DecidableEq A] [DecidableEq I]
    (g : FiniteExtensiveFormGame V H A I)
    (htreeKeys : eqSetB (g.game_tree.parents.map Prod.fst)
        g.game_tree.non_roots = true)
    (hppKeys : eqSetB (g.player_partition.map Prod.fst)
        g.information_sets = true)
    (h : H) (a : A) :
    CFRM.information_set_action_mask g h (h, a) = 1 ↔
      h ∈ CFRM.compiledInformationSets g ∧ a ∈ g.available_actions h := by
  unfold CFRM.information_set_action_mask
  constructor
  · intro hmask
    rcases hany : (g.nodes.any fun v =>
        decide ((CFRM.nodeCompiledData g v).map (fun d => (d.1, d.2.1))
          = some (h, (h, a)))) with _ | _
    · rw [hany] at hmask
      simp at hmask
    · obtain ⟨v, hvmem, hv⟩ := List.any_eq_true.mp hany
      rw [decide_eq_true_eq] at hv
      rcases hdata : CFRM.nodeCompiledData g v with _ | d
      · rw [hdata, Option.map_none'] at hv
        cases hv
      rw [hdata, Option.map_some', Option.some_inj] at hv
      obtain ⟨p, act, hp, hh, hcomp, ha, hpair, _⟩ :=
        nodeCompiledData_shape hdata
      have h1 : d.1 = h := congrArg Prod.fst hv
      have h21 : d.2.1 = (h, a) := congrArg Prod.snd hv
      rw [h21, h1] at hpair
      have hact : act = a := (congrArg Prod.snd hpair).symm
      subst hact
      rw [h1] at hh hcomp
      refine ⟨hcomp, (mem_available_actions_iff g h act).mpr
        ⟨v, ?_, p, hp, hh, ha⟩⟩
      have hvkeys : v ∈ g.game_tree.parents.map Prod.fst := fget_mem_keys hp
      exact ((eqSetB_iff _ _).mp htreeKeys v).mp hvkeys
  · rintro ⟨hcomp, ha⟩
    obtain ⟨c, hc, p, hp, hh, hact⟩ := (mem_available_actions_iff g h a).mp ha
    obtain ⟨i, hi⟩ := fget_isSome_of_mem_keys
      (((eqSetB_iff _ _).mp hppKeys h).mpr
        (compiled_subset_information_sets hcomp))
    have hdata := nodeCompiledData_of_parts hp hh hcomp hact hi
    have hanytrue : (g.nodes.any fun v =>
        decide ((CFRM.nodeCompiledData g v).map (fun d => (d.1, d.2.1))
          = some (h, (h, a)))) = true := by
      refine List.any_eq_true.mpr ⟨c, non_initial_subset_nodes hc, ?_⟩
      rw [decide_eq_true_eq, hdata, Option.map_some']
    rw [if_pos hanytrue]

theorem information_set_action_mask_values {V H A I : Type}
    [DecidableEq V] [DecidableEq H] [DecidableEq A] [DecidableEq I]
    (g : FiniteExtensiveFormGame V H A I) (h : H) (a : H × A) :
    CFRM.information_set_action_mask g h a = 0
      ∨ CFRM.information_set_action_mask g h a = 1 := by
  unfold CFRM.information_set_action_mask
  split
  · exact Or.inr rfl
  · exact Or.inl rfl

theorem information_set_action_counts_eq_length {V H A I : Type}
    [DecidableEq V] [DecidableEq H] [DecidableEq A] [DecidableEq I]
    (g : FiniteExtensiveFormGame V H A I)
    (hnd : g.information_sets.Nodup)
    (htreeKeys : eqSetB (g.game_tree.parents.map Prod.fst)
        g.game_tree.non_roots = true)
    (hppKeys : eqSetB (g.player_partition.map Prod.fst)
        g.information_sets = true)
    {h : H} (hcomp : h ∈ CFRM.compiledInformationSets g) :
    CFRM.information_set_action_counts g h
      = ((g.available_actions h).length : ℚ) := by
  have hcnd : (CFRM.compiledInformationSets g).Nodup :=
    List.Nodup.filter _ hnd
  have hzero : ∀ h2 ∈ CFRM.compiledInformationSets g, h2 ≠ h →
      qsum ((g.available_actions h2).map (fun a => (h2, a)))
        (fun a => CFRM.information_set_action_mask g h a) = 0 := by
    intro h2 _ hne
    apply qsum_eq_zero
    intro x hx
    obtain ⟨a, _, rfl⟩ := List.mem_map.mp hx
    by_contra hne0
    exact hne (information_set_action_mask_owner g hne0).symm
  have hone : ∀ a ∈ g.available_actions h,
      CFRM.information_set_action_mask g h (h, a) = (1 : ℚ) :=
    fun a ha => (information_set_action_mask_eq_one_iff g htreeKeys hppKeys
      h a).mpr ⟨hcomp, ha⟩
  unfold CFRM.information_set_action_counts CFRM.compiledActions
  rw [qsum_flatMap, qsum_eq_single hcnd hcomp hzero, qsum_map,
    qsum_congr hone, qsum_const, mul_one]

theorem initial_strategy_profile_uniform {V H A I : Type}
    [DecidableEq V] [DecidableEq H] [DecidableEq A] [DecidableEq I]
    (g : FiniteExtensiveFormGame V H A I)
    (hnd : g.information_sets.Nodup)
    (htreeKeys : eqSetB (g.game_tree.parents.map Prod.fst)
        g.game_tree.non_roots = true)
    (hppKeys : eqSetB (g.player_partition.map Prod.fst)
        g.information_sets = true)
    {h : H} {a : A} (hcomp : h ∈ CFRM.compiledInformationSets g)
    (ha : a ∈ g.available_actions h) :
    CFRM.initial_strategy_profile g (h, a)
      = ((g.available_actions h).length : ℚ)⁻¹ := by
  have hcnd : (CFRM.compiledInformationSets g).Nodup :=
    List.Nodup.filter _ hnd
  have hzero : ∀ h2 ∈ CFRM.compiledInformationSets g, h2 ≠ h →
      CFRM.information_set_action_mask g h2 (h, a)
        * CFRM.information_set_action_counts g h2 = 0 := by
    intro h2 _ hne
    by_cases hm0 : CFRM.information_set_action_mask g h2 (h, a) = 0
    · rw [hm0, zero_mul]
    · exact absurd (information_set_action_mask_owner g hm0) hne
  unfold CFRM.initial_strategy_profile
  rw [qsum_eq_single hcnd hcomp hzero,
    (information_set_action_mask_eq_one_iff g htreeKeys hppKeys h a).mpr
      ⟨hcomp, ha⟩,
    information_set_action_counts_eq_length g hnd htreeKeys hppKeys hcomp,
    one_mul]

theorem initial_strategy_profile_sum_one {V H A I : Type}
    [DecidableEq V] [DecidableEq H] [DecidableEq A] [DecidableEq I]
    (g : FiniteExtensiveFormGame V H A I)
    (hnd : g.information_sets.Nodup)
    (htreeKeys : eqSetB (g.game_tree.parents.map Prod.fst)
        g.game_tree.non_roots = true)
    (hppKeys : eqSetB (g.player_partition.map Prod.fst)
        g.information_sets = true)
    {h : H} (hcomp : h ∈ CFRM.compiledInformationSets g)
    (hne : g.available_actions h ≠ []) :
    qsum (g.available_actions h)
      (fun a => CFRM.initial_strategy_profile g (h, a)) = 1 := by
  have hlen : ((g.available_actions h).length : ℚ) ≠ 0 :=
    Nat.cast_ne_zero.mpr (fun hlen => hne (List.length_eq_zero.mp hlen))
  rw [qsum_congr (fun a ha =>
      initial_strategy_profile_uniform g hnd htreeKeys hppKeys hcomp ha),
    qsum_const, mul_inv_cancel₀ hlen]

/-! ### Claims C1 and C10: the average-strategy query. -/

/-- Counterexample to claim C1 as stated: on `gOne`, whose single
information set has k = 2 available actions, `get_average_strategy` right
after setup returns 0 — not the uniform value 1/k = 1/2 the claim
requires. -/
theorem c1_counterexample :
    CFRM.get_average_strategy (CFRM.setup gOne) 10 5 = some 0
    ∧ (gOne.available_actions 10).length = 2
    ∧ (0 : ℚ) ≠ ((gOne.available_actions 10).length : ℚ)⁻¹ := by
  refine ⟨rfl, rfl, ?_⟩
  have hlen : (gOne.available_actions 10).length = 2 := rfl
  rw [hlen]
  norm_num

/-- Claim C1 (amended): for every validly constructed game and compiled
(information set, action) pair, `get_average_strategy` after setup and
before any `iterate()` call returns 0 — `_setup_average_strategy_profile`
initialises the average profile to zeros.  The uniform values 1/k (k the
number of available actions) instead initialise the current strategy
profile `_strategy_profile`, which the running average only starts
tracking at the first `iterate()` call. -/
theorem c1_average_strategy_initially_zero {V H A I : Type}
    [DecidableEq V] [DecidableEq H] [DecidableEq A] [DecidableEq I]
    (g : FiniteExtensiveFormGame V H A I) (h : H) (a : A)
    (hnd : g.information_sets.Nodup)
    (htree : g.game_tree.postInit = Except.ok ())
    (hgame : g.postInit = Except.ok ())
    (hmem : (h, a) ∈ (CFRM.setup g).actions) :
    CFRM.get_average_strategy (CFRM.setup g) h a = some 0
    ∧ (CFRM.setup g).strategy_profile (h, a)
        = ((g.available_actions h).length : ℚ)⁻¹ := by
  obtain ⟨-, -, htreeKeys, -⟩ := (treePostInit_ok_iff _).mp htree
  obtain ⟨-, -, -, -, -, hppKeys, -⟩ :=
    (gamePostInit_ok_iff g).mp hgame
  have hmem2 : h ∈ CFRM.compiledInformationSets g ∧ a ∈ g.available_actions h :=
    (mem_compiledActions_iff g h a).mp hmem
  constructor
  · unfold CFRM.get_average_strategy
    rw [if_pos hmem]
    rfl
  · exact initial_strategy_profile_uniform g hnd htreeKeys hppKeys
      hmem2.1 hmem2.2

/-- Witness for the amended C1 at `gOne` and its compiled pair (10, 6). -/
theorem c1_witness :
    CFRM.get_average_strategy (CFRM.setup gOne) 10 6 = some 0
    ∧ (CFRM.setup gOne).strategy_profile (10, 6)
        = ((gOne.available_actions 10).length : ℚ)⁻¹ :=
  c1_average_strategy_initially_zero gOne 10 6 (by decide) rfl rfl (by decide)

/-- Claim C10: `get_average_strategy` renders a `KeyError` (here: `none`)
for every pair without a compiled action index — in particular whenever
the information set is nature-owned, or the action is not available at the
information set — because `_setup_indices` assigns indices only to
non-nature information sets paired with their available actions. -/
theorem c10_average_strategy_keyerror {V H A I : Type}
    [DecidableEq V] [DecidableEq H] [DecidableEq A] [DecidableEq I]
    (g : FiniteExtensiveFormGame V H A I) (h : H) (a : A)
    (hcond : h ∈ g.nature_information_sets ∨ a ∉ g.available_actions h) :
    CFRM.get_average_strategy (CFRM.setup g) h a = none := by
  have hnot : (h, a) ∉ (CFRM.setup g).actions := by
    intro hmem
    have hmem2 : h ∈ CFRM.compiledInformationSets g
        ∧ a ∈ g.available_actions h :=
      (mem_compiledActions_iff g h a).mp hmem
    rcases hcond with hnat | hnav
    · exact compiled_not_nature hmem2.1 hnat
    · exact hnav hmem2.2
  unfold CFRM.get_average_strategy
  rw [if_neg hnot]

/-- Witness for C10 at `gNature`, whose information set 10 is
nature-owned. -/
theorem c10_witness :
    (10 ∈ gNature.nature_information_sets
      ∨ (5 : ℕ) ∉ gNature.available_actions 10)
    ∧ CFRM.get_average_strategy (CFRM.setup gNature) 10 5 = none :=
  ⟨Or.inl (by decide),
    c10_average_strategy_keyerror gNature 10 5 (Or.inl (by decide))⟩

/-! ### Claim C5: the breadth-first level loop. -/

theorem successors_predecessor {V H A I : Type}
    [DecidableEq V] [DecidableEq H] [DecidableEq A] [DecidableEq I]
    {g : FiniteExtensiveFormGame V H A I} {n x : V}
    (hx : x ∈ g.successors n) : g.predecessors x = some n := by
  have h2 := (List.mem_filter.mp hx).2
  simpa using h2

theorem successors_subset_non_initial {V H A I : Type}
    [DecidableEq V] [DecidableEq H] [DecidableEq A] [DecidableEq I]
    {g : FiniteExtensiveFormGame V H A I} {n x : V}
    (hx : x ∈ g.successors n) : x ∈ g.non_initial_nodes :=
  (List.mem_filter.mp hx).1

theorem successors_ne_root {V H A I : Type}
    [DecidableEq V] [DecidableEq H] [DecidableEq A] [DecidableEq I]
    {g : FiniteExtensiveFormGame V H A I} {n x : V}
    (hx : x ∈ g.successors n) : x ≠ g.initial_node := by
  have h2 := (List.mem_filter.mp (successors_subset_non_initial hx)).2
  simpa using h2

theorem mem_nextLevelNodes {V H A I : Type}
    [DecidableEq V] [DecidableEq H] [DecidableEq A] [DecidableEq I]
    (g : FiniteExtensiveFormGame V H A I) (l : List V) (x : V) :
    x ∈ CFRM.nextLevelNodes g l ↔ ∃ n ∈ l, x ∈ g.successors n := by
  simp [CFRM.nextLevelNodes]

theorem bfs_levels_disjoint {V H A I : Type}
    [DecidableEq V] [DecidableEq H] [DecidableEq A] [DecidableEq I]
    (g : FiniteExtensiveFormGame V H A I) :
    ∀ (k d : ℕ) (x : V),
      x ∈ (CFRM.nextLevelNodes g)^[k] [g.initial_node] →
      x ∈ (CFRM.nextLevelNodes g)^[k + (d + 1)] [g.initial_node] → False := by
  intro k
  induction k with
  | zero =>
    intro d x h0 hd
    rw [Function.iterate_zero_apply, List.mem_singleton] at h0
    rw [zero_add, Function.iterate_succ_apply',
      mem_nextLevelNodes] at hd
    obtain ⟨n, _, hsucc⟩ := hd
    exact successors_ne_root hsucc h0
  | succ k ih =>
    intro d x hk hd
    rw [Function.iterate_succ_apply', mem_nextLevelNodes] at hk
    have hd2 : x ∈ (CFRM.nextLevelNodes g)^[(k + (d + 1)) + 1]
        [g.initial_node] := by
      have harith : k + 1 + (d + 1) = (k + (d + 1)) + 1 := by omega
      rwa [harith] at hd
    rw [Function.iterate_succ_apply', mem_nextLevelNodes] at hd2
    obtain ⟨n, hn, hsn⟩ := hk
    obtain ⟨m, hm, hsm⟩ := hd2
    have hnm : n = m := by
      have h1 := successors_predecessor hsn
      have h2 := successors_predecessor hsm
      rw [h1] at h2
      exact Option.some_inj.mp h2
    exact ih d n hn (hnm ▸ hm)

theorem bfs_levels_subset_nodes {V H A I : Type}
    [DecidableEq V] [DecidableEq H] [DecidableEq A] [DecidableEq I]
    (g : FiniteExtensiveFormGame V H A I)
    (hroot : g.initial_node ∈ g.nodes) :
    ∀ (k : ℕ) (x : V),
      x ∈ (CFRM.nextLevelNodes g)^[k] [g.initial_node] → x ∈ g.nodes := by
  intro k
  cases k with
  | zero =>
    intro x hx
    rw [Function.iterate_zero_apply, List.mem_singleton] at hx
    exact hx ▸ hroot
  | succ k =>
    intro x hx
    rw [Function.iterate_succ_apply', mem_nextLevelNodes] at hx
    obtain ⟨n, _, hsn⟩ := hx
    exact (List.mem_filter.mp (successors_subset_non_initial hsn)).1

theorem bfs_reaches_empty {V H A I : Type}
    [DecidableEq V] [DecidableEq H] [DecidableEq A] [DecidableEq I]
    (g : FiniteExtensiveFormGame V H A I)
    (hroot : g.initial_node ∈ g.nodes) :
    ∃ k ≤ g.nodes.length,
      (CFRM.nextLevelNodes g)^[k] [g.initial_node] = [] := by
  by_contra hcon
  push_neg at hcon
  have hne : ∀ k ∈ Finset.range (g.nodes.length + 1),
      1 ≤ ((CFRM.nextLevelNodes g)^[k] [g.initial_node]).toFinset.card := by
    intro k hk
    rw [Finset.mem_range] at hk
    obtain ⟨x, hx⟩ := List.exists_mem_of_ne_nil _ (hcon k (by omega))
    exact Finset.card_pos.mpr ⟨x, List.mem_toFinset.mpr hx⟩
  have hdisj : ∀ i ∈ Finset.range (g.nodes.length + 1),
      ∀ j ∈ Finset.range (g.nodes.length + 1), i ≠ j →
      Disjoint ((CFRM.nextLevelNodes g)^[i] [g.initial_node]).toFinset
        ((CFRM.nextLevelNodes g)^[j] [g.initial_node]).toFinset := by
    intro i _ j _ hij
    rw [List.disjoint_toFinset_iff_disjoint]
    rcases Nat.lt_or_ge i j with hlt | hge
    · intro x hxi hxj
      obtain ⟨d, rfl⟩ : ∃ d, j = i + (d + 1) :=
        ⟨j - i - 1, by omega⟩
      exact bfs_levels_disjoint g i d x hxi hxj
    · have hlt2 : j < i := by omega
      intro x hxi hxj
      obtain ⟨d, rfl⟩ : ∃ d, i = j + (d + 1) :=
        ⟨i - j - 1, by omega⟩
      exact bfs_levels_disjoint g j d x hxj hxi
  have hsub : (Finset.range (g.nodes.length + 1)).biUnion
      (fun k => ((CFRM.nextLevelNodes g)^[k] [g.initial_node]).toFinset)
      ⊆ g.nodes.toFinset := by
    refine Finset.biUnion_subset.mpr (fun k _ => ?_)
    intro x hx
    exact List.mem_toFinset.mpr
      (bfs_levels_subset_nodes g hroot k x (List.mem_toFinset.mp hx))
  have hcount : g.nodes.length + 1 ≤ g.nodes.length := by
    calc g.nodes.length + 1
        = (Finset.range (g.nodes.length + 1)).card := by simp
      _ = (Finset.range (g.nodes.length + 1)).sum (fun _ => 1) := by simp
      _ ≤ (Finset.range (g.nodes.length + 1)).sum
            (fun k => ((CFRM.nextLevelNodes g)^[k]
              [g.initial_node]).toFinset.card) :=
          Finset.sum_le_sum hne
      _ = ((Finset.range (g.nodes.length + 1)).biUnion
            (fun k => ((CFRM.nextLevelNodes g)^[k]
              [g.initial_node]).toFinset)).card :=
          (Finset.card_biUnion hdisj).symm
      _ ≤ g.nodes.toFinset.card := Finset.card_le_card hsub
      _ ≤ g.nodes.length := g.nodes.toFinset_card_le
  omega

theorem bfsLevels_total {V H A I : Type}
    [DecidableEq V] [DecidableEq H] [DecidableEq A] [DecidableEq I]
    (g : FiniteExtensiveFormGame V H A I) :
    ∀ (fuel : ℕ) (l : List V),
      (∃ k ≤ fuel, (CFRM.nextLevelNodes g)^[k] l = []) →
      ∃ out, CFRM.bfsLevels g fuel l = some out := by
  intro fuel
  induction fuel with
  | zero =>
    rintro l ⟨k, hk, hempty⟩
    interval_cases k
    rw [Function.iterate_zero_apply] at hempty
    subst hempty
    exact ⟨[], rfl⟩
  | succ fuel ih =>
    rintro l ⟨k, hk, hempty⟩
    cases l with
    | nil => exact ⟨[], rfl⟩
    | cons a t =>
      cases k with
      | zero =>
        rw [Function.iterate_zero_apply] at hempty
        cases hempty
      | succ k =>
        rw [Function.iterate_succ_apply] at hempty
        obtain ⟨rest, hrest⟩ := ih (CFRM.nextLevelNodes g (a :: t))
          ⟨k, by omega, hempty⟩
        refine ⟨CFRM.levelEdges g (a :: t) :: rest, ?_⟩
        rw [CFRM.bfsLevels, hrest]
        exact fun hcontra => List.noConfusion hcontra

theorem bfsLevels_last_empty {V H A I : Type}
    [DecidableEq V] [DecidableEq H] [DecidableEq A] [DecidableEq I]
    (g : FiniteExtensiveFormGame V H A I) :
    ∀ (fuel : ℕ) (l : List V) (out : List (List (V × V))),
      CFRM.bfsLevels g fuel l = some out → l ≠ [] →
      out ≠ [] ∧ out.getLast? = some [] := by
  intro fuel
  induction fuel with
  | zero =>
    intro l out hout hne
    cases l with
    | nil => exact absurd rfl hne
    | cons a t => cases hout
  | succ fuel ih =>
    intro l out hout hne
    cases l with
    | nil => exact absurd rfl hne
    | cons a t =>
      rw [CFRM.bfsLevels] at hout
      on_goal 2 => exact fun hcontra => List.noConfusion hcontra
      rcases hrest : CFRM.bfsLevels g fuel (CFRM.nextLevelNodes g (a :: t))
        with _ | rest
      · rw [hrest] at hout
        cases hout
      rw [hrest] at hout
      cases hout
      by_cases hnl : CFRM.nextLevelNodes g (a :: t) = []
      · have hrest2 : rest = [] := by
          rw [hnl] at hrest
          cases fuel with
          | zero => exact Option.some_inj.mp hrest.symm
          | succ fuel2 => exact Option.some_inj.mp hrest.symm
        subst hrest2
        refine ⟨List.cons_ne_nil _ _, ?_⟩
        have hedges : CFRM.levelEdges g (a :: t) = [] := by
          unfold CFRM.levelEdges
          rw [List.flatMap_eq_nil_iff]
          intro n hn
          rw [List.map_eq_nil_iff]
          exact List.flatMap_eq_nil_iff.mp hnl n hn
        rw [hedges]
        rfl
      · obtain ⟨hrne, hrlast⟩ := ih _ rest hrest hnl
        refine ⟨List.cons_ne_nil _ _, ?_⟩
        cases rest with
        | nil => exact absurd rfl hrne
        | cons b u => rw [List.getLast?_cons_cons]; exact hrlast

/-- Claim C5: on a tree that passed construction validation, the
breadth-first `while level_nodes` loop of `_setup_tensors` terminates
(within `len(nodes) + 1` rounds, the fuel `setup` uses), and the last level
it records has no edges, so its level graph has no nonzero entries and the
assertion that the deepest level-graph layer is entirely empty never
fails. -/
theorem c5_level_graph_loop_terminates {V H A I : Type}
    [DecidableEq V] [DecidableEq H] [DecidableEq A] [DecidableEq I]
    (g : FiniteExtensiveFormGame V H A I)
    (htree : g.game_tree.postInit = Except.ok ()) :
    ∃ levels, CFRM.bfsLevels g (g.nodes.length + 1) [g.initial_node]
        = some levels
      ∧ levels ≠ []
      ∧ ∃ last, levels.getLast? = some last
        ∧ ∀ u w, CFRM.edgeMat last u w = 0 := by
  obtain ⟨hroot, -, -, -⟩ := (treePostInit_ok_iff _).mp htree
  obtain ⟨k, hk, hempty⟩ := bfs_reaches_empty g hroot
  obtain ⟨levels, hlevels⟩ := bfsLevels_total g (g.nodes.length + 1)
    [g.initial_node] ⟨k, by omega, hempty⟩
  obtain ⟨hne, hlast⟩ := bfsLevels_last_empty g _ _ _ hlevels
    (List.cons_ne_nil _ _)
  exact ⟨levels, hlevels, hne, [], hlast, fun u w => by simp [CFRM.edgeMat]⟩

/-- Witness for C5 at `gOne`: the loop records the root level and the leaf
level, the latter with no edges. -/
theorem c5_witness :
    ∃ levels, CFRM.bfsLevels gOne (gOne.nodes.length + 1) [gOne.initial_node]
        = some levels
      ∧ levels ≠ []
      ∧ ∃ last, levels.getLast? = some last
        ∧ ∀ u w, CFRM.edgeMat last u w = 0 :=
  c5_level_graph_loop_terminates gOne rfl

/-! ### Claim C7: the best-response action selection. -/

theorem foldl_add_eq_qsum {T : Type} (l : List T) (f : T → ℚ) (c : ℚ) :
    l.foldl (fun acc v => acc + f v) c = c + qsum l f := by
  induction l generalizing c with
  | nil => simp [qsum_nil]
  | cons a t ih =>
    rw [List.foldl_cons, ih, qsum_cons]
    ring

theorem score_eq_qsum {V H A I : Type}
    [DecidableEq V] [DecidableEq H] [DecidableEq A] [DecidableEq I]
    (g : FiniteExtensiveFormGame V H A I) (reach ep : V → ℚ) (h : H) (a : A) :
    BestResponse.score g reach ep h a
      = qsum (BestResponse.nodesOf g h)
          (fun v => reach v
            * ((BestResponse.successorOf g v a).map ep).getD 0) := by
  unfold BestResponse.score
  rw [foldl_add_eq_qsum, zero_add]
  apply qsum_congr
  intro v _
  rcases hsv : BestResponse.successorOf g v a with _ | c <;> simp [hsv]

theorem pyMax_spec (l : List ℚ) (hne : l ≠ []) :
    BestResponse.pyMax l ∈ l ∧ ∀ b ∈ l, b ≤ BestResponse.pyMax l := by
  rcases hm : l.maximum with _ | m
  · exact absurd (List.maximum_eq_bot.mp hm) hne
  · have hpy : BestResponse.pyMax l = m := by
      unfold BestResponse.pyMax
      rw [hm]
      rfl
    rw [hpy]
    exact ⟨List.maximum_mem hm, fun b hb => List.le_maximum_of_mem hb hm⟩

theorem get_lt_indexOf_ne {l : List ℚ} {a : ℚ} {i : ℕ} (hi : i < l.length)
    (hidx : i < l.indexOf a) : l.get ⟨i, hi⟩ ≠ a := by
  induction l generalizing i with
  | nil => cases hi
  | cons b t ih =>
    by_cases hba : b = a
    · subst hba
      rw [List.indexOf_cons_self] at hidx
      cases hidx
    · cases i with
      | zero =>
        intro heq
        exact hba heq
      | succ i =>
        have hidx2 : (b :: t).indexOf a = t.indexOf a + 1 := by
          simp [List.indexOf_cons, hba]
        rw [hidx2] at hidx
        exact ih (by simpa using hi) (by omega)

theorem pyMax_argmax {A2 : Type} (l : List A2) (f : A2 → ℚ) (hne : l ≠ []) :
    ∃ k, ∃ hk : k < l.length,
      l.get? ((l.map f).indexOf (BestResponse.pyMax (l.map f)))
          = some (l.get ⟨k, hk⟩)
      ∧ (∀ b ∈ l, f b ≤ f (l.get ⟨k, hk⟩))
      ∧ ∀ i (hik : i < k), f (l.get ⟨i, hik.trans hk⟩) < f (l.get ⟨k, hk⟩) := by
  have hsne : l.map f ≠ [] :=
    fun hcontra => hne (List.map_eq_nil_iff.mp hcontra)
  obtain ⟨hmem, hbound⟩ := pyMax_spec (l.map f) hsne
  have hk0 : (l.map f).indexOf (BestResponse.pyMax (l.map f))
      < (l.map f).length :=
    List.indexOf_lt_length.mpr hmem
  have hk : (l.map f).indexOf (BestResponse.pyMax (l.map f)) < l.length := by
    simpa using hk0
  have hgetk : f (l.get ⟨(l.map f).indexOf (BestResponse.pyMax (l.map f)), hk⟩)
      = BestResponse.pyMax (l.map f) := by
    have h1 : (l.map f).get
        ⟨(l.map f).indexOf (BestResponse.pyMax (l.map f)), hk0⟩
        = BestResponse.pyMax (l.map f) := List.indexOf_get hk0
    rw [List.get_eq_getElem, List.getElem_map] at h1
    rw [List.get_eq_getElem]
    exact h1
  refine ⟨_, hk, List.get?_eq_get hk, ?_, ?_⟩
  · intro b hb
    rw [hgetk]
    exact hbound _ (List.mem_map.mpr ⟨b, hb, rfl⟩)
  · intro i hik
    have hi0 : i < (l.map f).length := by
      simpa using hik.trans hk
    have hgeti : (l.map f).get ⟨i, hi0⟩ = f (l.get ⟨i, hik.trans hk⟩) := by
      rw [List.get_eq_getElem, List.getElem_map, List.get_eq_getElem]
    have hle := hbound _ (List.get_mem (l.map f) i hi0)
    have hnee : (l.map f).get ⟨i, hi0⟩ ≠ BestResponse.pyMax (l.map f) :=
      get_lt_indexOf_ne hi0 hik
    rw [hgetk, ← hgeti]
    exact lt_of_le_of_ne hle hnee

/-- Claim C7: for every information set owned by the designated best
responder (with a nonempty action menu), `get_best_action` returns the
action at some index k of the information set's declared action order such
that (i) every action's score is the sum over the information set's nodes
of counterfactual reach times the expected payoff of the successor reached
by that action, (ii) the returned action attains the maximal score, and
(iii) every strictly earlier action in the declared order has a strictly
smaller score — the first-maximal tie-break. -/
theorem c7_best_action_first_maximal {V H A I : Type}
    [DecidableEq V] [DecidableEq H] [DecidableEq A] [DecidableEq I]
    (g : FiniteExtensiveFormGame V H A I) (player : I) (reach ep : V → ℚ)
    (h : H)
    (hown : fget g.player_partition h = some player)
    (hne : g.available_actions h ≠ []) :
    ∃ k, ∃ hk : k < (g.available_actions h).length,
      BestResponse.get_best_action g player reach ep h
          = some ((g.available_actions h).get ⟨k, hk⟩)
      ∧ (∀ a, BestResponse.score g reach ep h a
          = qsum (BestResponse.nodesOf g h)
              (fun v => reach v
                * ((BestResponse.successorOf g v a).map ep).getD 0))
      ∧ (∀ b ∈ g.available_actions h,
          BestResponse.score g reach ep h b
            ≤ BestResponse.score g reach ep h
                ((g.available_actions h).get ⟨k, hk⟩))
      ∧ ∀ i (hik : i < k),
          BestResponse.score g reach ep h
              ((g.available_actions h).get ⟨i, hik.trans hk⟩)
            < BestResponse.score g reach ep h
                ((g.available_actions h).get ⟨k, hk⟩) := by
  obtain ⟨k, hk, hget, hmax, hfirst⟩ :=
    pyMax_argmax (g.available_actions h) (BestResponse.score g reach ep h) hne
  refine ⟨k, hk, ?_, (fun a => score_eq_qsum g reach ep h a), hmax, hfirst⟩
  unfold BestResponse.get_best_action
  rw [if_pos hown]
  exact hget

/-- Witness for C7 at `gTwo`'s information set 11, owned by player 8, with
concrete reach and payoff tables. -/
theorem c7_witness :
    ∃ k, ∃ hk : k < (gTwo.available_actions 11).length,
      BestResponse.get_best_action gTwo 8 (fun _ => 1)
          (fun v => if v = 3 then 1 else if v = 5 then 2 else if v = 6 then -1 else 0) 11
          = some ((gTwo.available_actions 11).get ⟨k, hk⟩)
      ∧ (∀ a, BestResponse.score gTwo (fun _ => 1)
          (fun v => if v = 3 then 1 else if v = 5 then 2 else if v = 6 then -1 else 0) 11 a
          = qsum (BestResponse.nodesOf gTwo 11)
              (fun v => (fun _ => (1 : ℚ)) v
                * ((BestResponse.successorOf gTwo v a).map
                    (fun v => if v = 3 then (1 : ℚ) else if v = 5 then 2 else if v = 6 then -1 else 0)).getD 0))
      ∧ (∀ b ∈ gTwo.available_actions 11,
          BestResponse.score gTwo (fun _ => 1)
              (fun v => if v = 3 then 1 else if v = 5 then 2 else if v = 6 then -1 else 0) 11 b
            ≤ BestResponse.score gTwo (fun _ => 1)
                (fun v => if v = 3 then 1 else if v = 5 then 2 else if v = 6 then -1 else 0) 11
                ((gTwo.available_actions 11).get ⟨k, hk⟩))
      ∧ ∀ i (hik : i < k),
          BestResponse.score gTwo (fun _ => 1)
              (fun v => if v = 3 then 1 else if v = 5 then 2 else if v = 6 then -1 else 0) 11
              ((gTwo.available_actions 11).get ⟨i, hik.trans hk⟩)
            < BestResponse.score gTwo (fun _ => 1)
                (fun v => if v = 3 then 1 else if v = 5 then 2 else if v = 6 then -1 else 0) 11
                ((gTwo.available_actions 11).get ⟨k, hk⟩) :=
  c7_best_action_first_maximal gTwo 8 (fun _ => 1)
    (fun v => if v = 3 then 1 else if v = 5 then 2 else if v = 6 then -1 else 0)
    11 rfl (by decide)

/-! ### Claims C2 and C3: strategy-profile sums along the iteration. -/

theorem qsum_nonneg {T : Type} {l : List T} {f : T → ℚ}
    (h : ∀ x ∈ l, 0 ≤ f x) : 0 ≤ qsum l f := by
  induction l with
  | nil => rw [qsum_nil]
  | cons a t ih =>
    rw [qsum_cons]
    exact add_nonneg (h a (by simp)) (ih (fun x hx => h x (by simp [hx])))

theorem qsum_filter {T : Type} (l : List T) (p : T → Bool) (f : T → ℚ) :
    qsum l (fun x => if p x = true then f x else 0)
      = qsum (l.filter p) f := by
  induction l with
  | nil => rfl
  | cons a t ih =>
    rw [qsum_cons, List.filter_cons]
    by_cases hp : p a = true
    · rw [if_pos hp, if_pos hp, qsum_cons, ih]
    · rw [if_neg hp, if_neg (by simpa using hp), ih, zero_add]

theorem mask_weighted_qsum_eq_single {V H A I : Type}
    [DecidableEq V] [DecidableEq H] [DecidableEq A] [DecidableEq I]
    (g : FiniteExtensiveFormGame V H A I)
    (hnd : g.information_sets.Nodup)
    (htreeKeys : eqSetB (g.game_tree.parents.map Prod.fst)
        g.game_tree.non_roots = true)
    (hppKeys : eqSetB (g.player_partition.map Prod.fst)
        g.information_sets = true)
    {h : H} {a : A} (hcomp : h ∈ CFRM.compiledInformationSets g)
    (ha : a ∈ g.available_actions h) (x : H → ℚ) :
    qsum (CFRM.compiledInformationSets g)
      (fun h2 => CFRM.information_set_action_mask g h2 (h, a) * x h2)
      = x h := by
  have hcnd : (CFRM.compiledInformationSets g).Nodup :=
    List.Nodup.filter _ hnd
  have hzero : ∀ h2 ∈ CFRM.compiledInformationSets g, h2 ≠ h →
      CFRM.information_set_action_mask g h2 (h, a) * x h2 = 0 := by
    intro h2 _ hne
    by_cases hm0 : CFRM.information_set_action_mask g h2 (h, a) = 0
    · rw [hm0, zero_mul]
    · exact absurd (information_set_action_mask_owner g hm0) hne
  rw [qsum_eq_single hcnd hcomp hzero,
    (information_set_action_mask_eq_one_iff g htreeKeys hppKeys h a).mpr
      ⟨hcomp, ha⟩, one_mul]

theorem mask_weighted_inner_sum {V H A I : Type}
    [DecidableEq V] [DecidableEq H] [DecidableEq A] [DecidableEq I]
    (g : FiniteExtensiveFormGame V H A I)
    (hnd : g.information_sets.Nodup)
    (htreeKeys : eqSetB (g.game_tree.parents.map Prod.fst)
        g.game_tree.non_roots = true)
    (hppKeys : eqSetB (g.player_partition.map Prod.fst)
        g.information_sets = true)
    {h : H} (hcomp : h ∈ CFRM.compiledInformationSets g)
    (y : (H × A) → ℚ) :
    qsum (CFRM.compiledActions g)
      (fun b => CFRM.information_set_action_mask g h b * y b)
      = qsum (g.available_actions h) (fun act => y (h, act)) := by
  have hcnd : (CFRM.compiledInformationSets g).Nodup :=
    List.Nodup.filter _ hnd
  have hzero : ∀ h2 ∈ CFRM.compiledInformationSets g, h2 ≠ h →
      qsum ((g.available_actions h2).map (fun a => (h2, a)))
        (fun b => CFRM.information_set_action_mask g h b * y b) = 0 := by
    intro h2 _ hne
    apply qsum_eq_zero
    intro b hb
    obtain ⟨act, _, rfl⟩ := List.mem_map.mp hb
    by_cases hm0 : CFRM.information_set_action_mask g h (h2, act) = 0
    · rw [hm0, zero_mul]
    · exact absurd (information_set_action_mask_owner g hm0).symm hne
  unfold CFRM.compiledActions
  rw [qsum_flatMap, qsum_eq_single hcnd hcomp hzero, qsum_map]
  apply qsum_congr
  intro act hact
  rw [(information_set_action_mask_eq_one_iff g htreeKeys hppKeys
    h act).mpr ⟨hcomp, hact⟩, one_mul]

theorem nextStrategyDenom_eq_group_sum {V H A I : Type}
    [DecidableEq V] [DecidableEq H] [DecidableEq A] [DecidableEq I]
    (g : FiniteExtensiveFormGame V H A I) (s : CFRState V H A I)
    (hcompat : CFRM.compiledCompatible g s)
    (hnd : g.information_sets.Nodup)
    (htreeKeys : eqSetB (g.game_tree.parents.map Prod.fst)
        g.game_tree.non_roots = true)
    (hppKeys : eqSetB (g.player_partition.map Prod.fst)
        g.information_sets = true)
    {h : H} {a : A} (hcomp : h ∈ CFRM.compiledInformationSets g)
    (ha : a ∈ g.available_actions h) (clipped : (H × A) → ℚ) :
    CFRM.nextStrategyDenom s clipped (h, a)
      = qsum (g.available_actions h) (fun act => clipped (h, act)) := by
  obtain ⟨h1, h2, h3, -, -⟩ := hcompat
  unfold CFRM.nextStrategyDenom
  rw [h1, h2, h3]
  rw [mask_weighted_qsum_eq_single g hnd htreeKeys hppKeys hcomp ha]
  exact mask_weighted_inner_sum g hnd htreeKeys hppKeys hcomp clipped

theorem setup_compiledCompatible {V H A I : Type}
    [DecidableEq V] [DecidableEq H] [DecidableEq A] [DecidableEq I]
    (g : FiniteExtensiveFormGame V H A I) :
    CFRM.compiledCompatible g (CFRM.setup g) :=
  ⟨rfl, rfl, rfl, rfl, rfl⟩

theorem iterate_compiledCompatible {V H A I : Type}
    [DecidableEq V] [DecidableEq H] [DecidableEq A] [DecidableEq I]
    (g : FiniteExtensiveFormGame V H A I) (s : CFRState V H A I)
    (hc : CFRM.compiledCompatible g s) :
    CFRM.compiledCompatible g (CFRM.iterate s) := by
  obtain ⟨h1, h2, h3, h4, h5⟩ := hc
  refine ⟨?_, ?_, ?_, ?_, ?_⟩ <;>
    simp only [CFRM.iterate, CFRM.calculate_strategies,
      CFRM.calculate_expected_payoffs,
      CFRM.calculate_excepted_reach_probabilities,
      CFRM.calculate_counterfactual_reach_probability_terms,
      CFRM.calculate_average_strategy_profile,
      CFRM.calculate_next_strategy_profile, h1, h2, h3, h4, h5]

theorem iterate_pow_compiledCompatible {V H A I : Type}
    [DecidableEq V] [DecidableEq H] [DecidableEq A] [DecidableEq I]
    (g : FiniteExtensiveFormGame V H A I) (n : ℕ) :
    CFRM.compiledCompatible g (CFRM.iterate^[n] (CFRM.setup g)) := by
  induction n with
  | zero => exact setup_compiledCompatible g
  | succ n ih =>
    rw [Function.iterate_succ_apply']
    exact iterate_compiledCompatible g _ ih

theorem iterate_average_strategy_profile {V H A I : Type}
    [DecidableEq V] [DecidableEq H] [DecidableEq A] [DecidableEq I]
    (s : CFRState V H A I) :
    (CFRM.iterate s).average_strategy_profile
      = (fun a => s.average_strategy_profile a
          + (qsum s.information_sets (fun h =>
              s.information_set_action_mask h a
                * ((CFRM.iterate s).counterfactual_reach_probabilities h
                    / (CFRM.iterate s).counterfactual_reach_probability_sums h)))
            * (s.strategy_profile a - s.average_strategy_profile a)) := by
  simp only [CFRM.iterate, CFRM.calculate_strategies,
    CFRM.calculate_expected_payoffs,
    CFRM.calculate_excepted_reach_probabilities,
    CFRM.calculate_counterfactual_reach_probability_terms,
    CFRM.calculate_average_strategy_profile,
    CFRM.calculate_next_strategy_profile]
  try rfl

theorem iterate_reach_sums {V H A I : Type}
    [DecidableEq V] [DecidableEq H] [DecidableEq A] [DecidableEq I]
    (s : CFRState V H A I) :
    (CFRM.iterate s).counterfactual_reach_probability_sums
      = (fun h => s.counterfactual_reach_probability_sums h
          + (CFRM.iterate s).counterfactual_reach_probabilities h) := by
  simp only [CFRM.iterate, CFRM.calculate_strategies,
    CFRM.calculate_expected_payoffs,
    CFRM.calculate_excepted_reach_probabilities,
    CFRM.calculate_counterfactual_reach_probability_terms,
    CFRM.calculate_average_strategy_profile,
    CFRM.calculate_next_strategy_profile]
  try rfl

theorem iterate_strategy_profile {V H A I : Type}
    [DecidableEq V] [DecidableEq H] [DecidableEq A] [DecidableEq I]
    (s : CFRState V H A I) :
    (CFRM.iterate s).strategy_profile
      = CFRM.nextStrategyProfileCalc s
          ((CFRM.iterate s).clipped_average_counterfactual_regrets)
          (CFRM.nextStrategyDenom s
            ((CFRM.iterate s).clipped_average_counterfactual_regrets)) := by
  simp only [CFRM.iterate, CFRM.calculate_strategies,
    CFRM.calculate_expected_payoffs,
    CFRM.calculate_excepted_reach_probabilities,
    CFRM.calculate_counterfactual_reach_probability_terms,
    CFRM.calculate_average_strategy_profile,
    CFRM.calculate_next_strategy_profile]
  try rfl

theorem qsum_sub {T : Type} (l : List T) (f g : T → ℚ) :
    qsum l (fun x => f x - g x) = qsum l f - qsum l g := by
  induction l with
  | nil => simp [qsum_nil]
  | cons a t ih =>
    rw [qsum_cons, qsum_cons, qsum_cons, ih]
    ring

theorem next_strategy_profile_sum_one {V H A I : Type}
    [DecidableEq V] [DecidableEq H] [DecidableEq A] [DecidableEq I]
    (g : FiniteExtensiveFormGame V H A I) (s : CFRState V H A I)
    (hcompat : CFRM.compiledCompatible g s)
    (hnd : g.information_sets.Nodup)
    (htreeKeys : eqSetB (g.game_tree.parents.map Prod.fst)
        g.game_tree.non_roots = true)
    (hppKeys : eqSetB (g.player_partition.map Prod.fst)
        g.information_sets = true)
    {h : H} (hcomp : h ∈ CFRM.compiledInformationSets g)
    (hane : g.available_actions h ≠ [])
    (clipped : (H × A) → ℚ) :
    qsum (g.available_actions h)
      (fun a => CFRM.nextStrategyProfileCalc s clipped
          (CFRM.nextStrategyDenom s clipped) (h, a)) = 1 := by
  have hdenom : ∀ a ∈ g.available_actions h,
      CFRM.nextStrategyDenom s clipped (h, a)
        = qsum (g.available_actions h) (fun act => clipped (h, act)) :=
    fun a ha => nextStrategyDenom_eq_group_sum g s hcompat hnd htreeKeys
      hppKeys hcomp ha clipped
  by_cases hS : qsum (g.available_actions h) (fun act => clipped (h, act)) = 0
  · have heach : ∀ a ∈ g.available_actions h,
        CFRM.nextStrategyProfileCalc s clipped
            (CFRM.nextStrategyDenom s clipped) (h, a)
          = CFRM.initial_strategy_profile g (h, a) := by
      intro a ha
      unfold CFRM.nextStrategyProfileCalc
      rw [hdenom a ha, if_pos hS, hcompat.2.2.2.2]
    rw [qsum_congr heach]
    exact initial_strategy_profile_sum_one g hnd htreeKeys hppKeys hcomp hane
  · have heach : ∀ a ∈ g.available_actions h,
        CFRM.nextStrategyProfileCalc s clipped
            (CFRM.nextStrategyDenom s clipped) (h, a)
          = clipped (h, a)
            / qsum (g.available_actions h) (fun act => clipped (h, act)) := by
      intro a ha
      unfold CFRM.nextStrategyProfileCalc
      rw [hdenom a ha, if_neg hS]
    rw [qsum_congr heach, qsum_div_const, div_self hS]

theorem c2_aux {V H A I : Type}
    [DecidableEq V] [DecidableEq H] [DecidableEq A] [DecidableEq I]
    (g : FiniteExtensiveFormGame V H A I)
    (hnd : g.information_sets.Nodup)
    (htreeKeys : eqSetB (g.game_tree.parents.map Prod.fst)
        g.game_tree.non_roots = true)
    (hppKeys : eqSetB (g.player_partition.map Prod.fst)
        g.information_sets = true)
    {h : H} (hcomp : h ∈ CFRM.compiledInformationSets g)
    (hane : g.available_actions h ≠ []) :
    ∀ n : ℕ,
      (∀ m, 1 ≤ m → m ≤ n →
        0 < (CFRM.iterate^[m]
          (CFRM.setup g)).counterfactual_reach_probabilities h) →
      (qsum (g.available_actions h)
          (fun a => (CFRM.iterate^[n]
            (CFRM.setup g)).strategy_profile (h, a)) = 1)
      ∧ (0 ≤ (CFRM.iterate^[n]
          (CFRM.setup g)).counterfactual_reach_probability_sums h)
      ∧ (n = 0 →
          (CFRM.iterate^[n]
              (CFRM.setup g)).counterfactual_reach_probability_sums h = 0
          ∧ ∀ a, (CFRM.iterate^[n]
              (CFRM.setup g)).average_strategy_profile (h, a) = 0)
      ∧ (1 ≤ n →
          qsum (g.available_actions h)
            (fun a => (CFRM.iterate^[n]
              (CFRM.setup g)).average_strategy_profile (h, a)) = 1) := by
  intro n
  induction n with
  | zero =>
    intro _
    refine ⟨?_, ?_, ?_, ?_⟩
    · rw [Function.iterate_zero_apply]
      exact initial_strategy_profile_sum_one g hnd htreeKeys hppKeys hcomp hane
    · rw [Function.iterate_zero_apply]
      exact le_of_eq rfl
    · intro _
      rw [Function.iterate_zero_apply]
      exact ⟨rfl, fun a => rfl⟩
    · intro h10
      exact absurd h10 (by omega)
  | succ n ih =>
    intro hpos
    obtain ⟨ihA, ihD, ihB, ihC⟩ := ih (fun m h1 h2 => hpos m h1 (by omega))
    have hcompatn : CFRM.compiledCompatible g
        (CFRM.iterate^[n] (CFRM.setup g)) :=
      iterate_pow_compiledCompatible g n
    have hstep : CFRM.iterate^[n + 1] (CFRM.setup g)
        = CFRM.iterate (CFRM.iterate^[n] (CFRM.setup g)) :=
      Function.iterate_succ_apply' _ _ _
    have hcr : 0 < (CFRM.iterate (CFRM.iterate^[n]
        (CFRM.setup g))).counterfactual_reach_probabilities h := by
      rw [← hstep]
      exact hpos (n + 1) (by omega) (by omega)
    have hsums : (CFRM.iterate (CFRM.iterate^[n]
          (CFRM.setup g))).counterfactual_reach_probability_sums h
        = (CFRM.iterate^[n]
              (CFRM.setup g)).counterfactual_reach_probability_sums h
          + (CFRM.iterate (CFRM.iterate^[n]
              (CFRM.setup g))).counterfactual_reach_probabilities h :=
      congrFun (iterate_reach_sums _) h
    have hsumpos : 0 < (CFRM.iterate (CFRM.iterate^[n]
        (CFRM.setup g))).counterfactual_reach_probability_sums h := by
      rw [hsums]
      exact add_pos_of_nonneg_of_pos ihD hcr
    have havg : ∀ a ∈ g.available_actions h,
        (CFRM.iterate (CFRM.iterate^[n]
            (CFRM.setup g))).average_strategy_profile (h, a)
          = (CFRM.iterate^[n]
                (CFRM.setup g)).average_strategy_profile (h, a)
            + ((CFRM.iterate (CFRM.iterate^[n]
                  (CFRM.setup g))).counterfactual_reach_probabilities h
                / (CFRM.iterate (CFRM.iterate^[n]
                  (CFRM.setup g))).counterfactual_reach_probability_sums h)
              * ((CFRM.iterate^[n] (CFRM.setup g)).strategy_profile (h, a)
                  - (CFRM.iterate^[n]
                      (CFRM.setup g)).average_strategy_profile (h, a)) := by
      intro a ha
      have h1 := congrFun (iterate_average_strategy_profile
        (CFRM.iterate^[n] (CFRM.setup g))) (h, a)
      rw [h1, hcompatn.1, hcompatn.2.2.1,
        mask_weighted_qsum_eq_single g hnd htreeKeys hppKeys hcomp ha]
    refine ⟨?_, ?_, ?_, ?_⟩
    · rw [hstep]
      have hsp := iterate_strategy_profile (CFRM.iterate^[n] (CFRM.setup g))
      have heach : ∀ a ∈ g.available_actions h,
          (CFRM.iterate (CFRM.iterate^[n]
              (CFRM.setup g))).strategy_profile (h, a)
            = CFRM.nextStrategyProfileCalc (CFRM.iterate^[n] (CFRM.setup g))
                ((CFRM.iterate (CFRM.iterate^[n]
                  (CFRM.setup g))).clipped_average_counterfactual_regrets)
                (CFRM.nextStrategyDenom (CFRM.iterate^[n] (CFRM.setup g))
                  ((CFRM.iterate (CFRM.iterate^[n]
                    (CFRM.setup g))).clipped_average_counterfactual_regrets))
                (h, a) :=
        fun a _ => congrFun hsp (h, a)
      rw [qsum_congr heach]
      exact next_strategy_profile_sum_one g _ hcompatn hnd htreeKeys hppKeys
        hcomp hane _
    · rw [hstep]
      exact le_of_lt hsumpos
    · intro hcontra
      exact absurd hcontra (by omega)
    · intro _
      rw [hstep, qsum_congr havg, qsum_add]
      have hmul : ∀ a ∈ g.available_actions h,
          ((CFRM.iterate (CFRM.iterate^[n]
                (CFRM.setup g))).counterfactual_reach_probabilities h
              / (CFRM.iterate (CFRM.iterate^[n]
                (CFRM.setup g))).counterfactual_reach_probability_sums h)
            * ((CFRM.iterate^[n] (CFRM.setup g)).strategy_profile (h, a)
                - (CFRM.iterate^[n]
                    (CFRM.setup g)).average_strategy_profile (h, a))
          = ((CFRM.iterate^[n] (CFRM.setup g)).strategy_profile (h, a)
                - (CFRM.iterate^[n]
                    (CFRM.setup g)).average_strategy_profile (h, a))
            * ((CFRM.iterate (CFRM.iterate^[n]
                  (CFRM.setup g))).counterfactual_reach_probabilities h
                / (CFRM.iterate (CFRM.iterate^[n]
                  (CFRM.setup g))).counterfactual_reach_probability_sums h) :=
        fun a _ => mul_comm _ _
      rw [qsum_congr hmul, qsum_mul_right, qsum_sub, ihA]
      rcases Nat.eq_zero_or_pos n with hn0 | hn1
      · obtain ⟨hsum0, havg0⟩ := ihB hn0
        have havgsum : qsum (g.available_actions h)
            (fun a => (CFRM.iterate^[n]
              (CFRM.setup g)).average_strategy_profile (h, a)) = 0 :=
          qsum_eq_zero (fun a _ => havg0 a)
        rw [havgsum, hsums, hsum0, zero_add, zero_add,
          div_self (ne_of_gt hcr)]
        ring
      · rw [ihC hn1]
        ring

/-- Counterexample to claim C2 as stated: at the reachable iteration count
t = 0 (right after setup, before any `iterate()`), the average strategy
profile is all zeros, so the per-information-set sum is 0 — not within the
claimed 1e-9 tolerance of 1. -/
theorem c2_counterexample :
    (CFRM.setup gOne).iteration_count = 0
    ∧ qsum (gOne.available_actions 10)
        (fun a => (CFRM.setup gOne).average_strategy_profile (10, a)) = 0
    ∧ ¬ |qsum (gOne.available_actions 10)
          (fun a => (CFRM.setup gOne).average_strategy_profile (10, a)) - 1|
        ≤ 1 / 1000000000 := by
  refine ⟨rfl, by with_unfolding_all decide, by with_unfolding_all decide⟩

/-- Claim C2 (amended): the sum over an information set's available actions
of the average strategy equals 1 (exactly, hence within any tolerance) for
every iteration count t ≥ 1, provided every iteration up to t gave the
information set a strictly positive counterfactual-reach increment (the
divisions `cr / cumulative cr` are then well defined; the spec itself
leaves the zero-reach case open).  At t = 0 the sum is 0, not 1: the
average profile starts at zeros. -/
theorem c2_average_strategy_sums_to_one {V H A I : Type}
    [DecidableEq V] [DecidableEq H] [DecidableEq A] [DecidableEq I]
    (g : FiniteExtensiveFormGame V H A I) (h : H) (n : ℕ)
    (hnd : g.information_sets.Nodup)
    (htree : g.game_tree.postInit = Except.ok ())
    (hgame : g.postInit = Except.ok ())
    (hcomp : h ∈ CFRM.compiledInformationSets g)
    (hane : g.available_actions h ≠ [])
    (hn : 1 ≤ n)
    (hpos : ∀ m, 1 ≤ m → m ≤ n →
      0 < (CFRM.iterate^[m]
        (CFRM.setup g)).counterfactual_reach_probabilities h) :
    qsum (g.available_actions h)
      (fun a => (CFRM.iterate^[n]
        (CFRM.setup g)).average_strategy_profile (h, a)) = 1 := by
  obtain ⟨-, -, htreeKeys, -⟩ := (treePostInit_ok_iff _).mp htree
  obtain ⟨-, -, -, -, -, hppKeys, -⟩ :=
    (gamePostInit_ok_iff g).mp hgame
  exact (c2_aux g hnd htreeKeys hppKeys hcomp hane n hpos).2.2.2 hn

/-- Witness for the amended C2 at `gOne` after one iteration. -/
theorem c2_witness :
    qsum (gOne.available_actions 10)
      (fun a => (CFRM.iterate^[1]
        (CFRM.setup gOne)).average_strategy_profile (10, a)) = 1 :=
  c2_average_strategy_sums_to_one gOne 10 1 (by decide) rfl rfl (by decide)
    (by decide) (by omega)
    (fun m h1 h2 => by
      have hm : m = 1 := by omega
      subst hm
      with_unfolding_all decide)

theorem sfMask_owner {J A2 : Type} [DecidableEq J] [DecidableEq A2]
    (t : TreeFormSequentialDecisionProcess J A2) {j2 j : J} {b : A2}
    (hne : SFRM.sfMask t j2 (j, b) ≠ 0) : j2 = j := by
  unfold SFRM.sfMask at hne
  by_cases hcond : j2 ∈ t.decision_points ∧ (j, b).1 = j2
      ∧ (j, b).2 ∈ (fget t.actions j2).getD []
  · exact hcond.2.1.symm
  · rw [if_neg hcond] at hne
    exact absurd rfl hne

theorem sfMask_eq_one {J A2 : Type} [DecidableEq J] [DecidableEq A2]
    (t : TreeFormSequentialDecisionProcess J A2) {j : J} {b : A2}
    (hj : j ∈ t.decision_points) (hb : b ∈ (fget t.actions j).getD []) :
    SFRM.sfMask t j (j, b) = 1 := by
  unfold SFRM.sfMask
  rw [if_pos ⟨hj, rfl, hb⟩]

theorem sf_inner_sum {J A2 : Type} [DecidableEq J] [DecidableEq A2]
    (t : TreeFormSequentialDecisionProcess J A2) (j : J) (f : (J × A2) → ℚ)
    (hjdp : j ∈ t.decision_points)
    (hkeysnd : (SFRM.seqKeys t).Nodup)
    (hkeys : ∀ c ∈ (fget t.actions j).getD [], (j, c) ∈ SFRM.seqKeys t)
    (hactnd : ((fget t.actions j).getD []).Nodup) :
    qsum (SFRM.seqKeys t) (fun y => SFRM.sfMask t j y * f y)
      = qsum ((fget t.actions j).getD []) (fun c => f (j, c)) := by
  have hmaskif : ∀ y ∈ SFRM.seqKeys t,
      SFRM.sfMask t j y * f y
        = if (decide (y.1 = j)
            && decide (y.2 ∈ (fget t.actions j).getD [])) = true
          then f y else 0 := by
    intro y _
    unfold SFRM.sfMask
    by_cases h1 : y.1 = j
    · by_cases h2 : y.2 ∈ (fget t.actions j).getD []
      · rw [if_pos ⟨hjdp, h1, h2⟩, one_mul, if_pos (by simp [h1, h2])]
      · have hnotc : ¬ (j ∈ t.decision_points ∧ y.1 = j
            ∧ y.2 ∈ (fget t.actions j).getD []) :=
          fun hcond => h2 hcond.2.2
        rw [if_neg hnotc, zero_mul, if_neg (by simp [h2])]
    · have hnotc : ¬ (j ∈ t.decision_points ∧ y.1 = j
          ∧ y.2 ∈ (fget t.actions j).getD []) :=
        fun hcond => h1 hcond.2.1
      rw [if_neg hnotc, zero_mul, if_neg (by simp [h1])]
  rw [qsum_congr hmaskif, qsum_filter]
  have hperm : List.Perm ((SFRM.seqKeys t).filter
      (fun y => decide (y.1 = j)
        && decide (y.2 ∈ (fget t.actions j).getD [])))
      (((fget t.actions j).getD []).map (fun c => (j, c))) := by
    apply List.perm_of_nodup_nodup_toFinset_eq
    · exact List.Nodup.filter _ hkeysnd
    · exact List.Nodup.map (fun a b hab => by injection hab) hactnd
    · ext y
      obtain ⟨y1, y2⟩ := y
      simp only [List.mem_toFinset, List.mem_filter, List.mem_map,
        Bool.and_eq_true, decide_eq_true_eq]
      constructor
      · rintro ⟨hy, h1, h2⟩
        subst h1
        exact ⟨y2, h2, rfl⟩
      · rintro ⟨c, hc, heq⟩
        injection heq with he1 he2
        subst he1
        subst he2
        exact ⟨hkeys c hc, rfl, hc⟩
  rw [qsum_perm hperm, qsum_map]

theorem sfNextStrategyDenom_eq_group_sum {J A2 : Type} [DecidableEq J]
    [DecidableEq A2] (s : SFRM.SequenceFormCFRState J A2)
    (numerator : (J × A2) → ℚ) (j : J) (b : A2)
    (hdpnd : s.tfsdp.decision_points.Nodup)
    (hjdp : j ∈ s.tfsdp.decision_points)
    (hb : b ∈ (fget s.tfsdp.actions j).getD [])
    (hkeysnd : (SFRM.seqKeys s.tfsdp).Nodup)
    (hkeys : ∀ c ∈ (fget s.tfsdp.actions j).getD [],
      (j, c) ∈ SFRM.seqKeys s.tfsdp)
    (hactnd : ((fget s.tfsdp.actions j).getD []).Nodup) :
    SFRM.sfNextStrategyDenom s numerator (j, b)
      = qsum ((fget s.tfsdp.actions j).getD [])
          (fun c => numerator (j, c)) := by
  unfold SFRM.sfNextStrategyDenom
  have hzero : ∀ j2 ∈ s.tfsdp.decision_points, j2 ≠ j →
      SFRM.sfMask s.tfsdp j2 (j, b)
        * qsum (SFRM.seqKeys s.tfsdp)
            (fun y => SFRM.sfMask s.tfsdp j2 y * numerator y) = 0 := by
    intro j2 _ hne
    by_cases hm0 : SFRM.sfMask s.tfsdp j2 (j, b) = 0
    · rw [hm0, zero_mul]
    · exact absurd (sfMask_owner s.tfsdp hm0) hne
  rw [qsum_eq_single hdpnd hjdp hzero, sfMask_eq_one s.tfsdp hjdp hb, one_mul]
  exact sf_inner_sum s.tfsdp j numerator hjdp hkeysnd hkeys hactnd

/-- Claim C3: in the next-strategy derivation, an information set whose
floored (clipped-at-zero) accumulated counterfactual regrets sum to zero
has every action assigned exactly the default uniform value computed at
setup, while an information set with a positive floored-regret sum has
every action assigned floored regret divided by that sum; the first
conjunct pair states this for the node-form solver's
`_calculate_next_strategy_profile`, the second for the sequence-form
solver's `next_strategy`. -/
theorem c3_next_strategy_uniform_fallback {V H A I J A2 : Type}
    [DecidableEq V] [DecidableEq H] [DecidableEq A] [DecidableEq I]
    [DecidableEq J] [DecidableEq A2]
    (g : FiniteExtensiveFormGame V H A I) (s : CFRState V H A I)
    (h : H) (a : A)
    (hnd : g.information_sets.Nodup)
    (htree : g.game_tree.postInit = Except.ok ())
    (hgame : g.postInit = Except.ok ())
    (hcompat : CFRM.compiledCompatible g s)
    (hcomp : h ∈ CFRM.compiledInformationSets g)
    (ha : a ∈ g.available_actions h)
    (t : SFRM.SequenceFormCFRState J A2) (j : J) (b : A2)
    (hdpnd : t.tfsdp.decision_points.Nodup)
    (hjdp : j ∈ t.tfsdp.decision_points)
    (hb : b ∈ (fget t.tfsdp.actions j).getD [])
    (hkeysnd : (SFRM.seqKeys t.tfsdp).Nodup)
    (hkeys : ∀ c ∈ (fget t.tfsdp.actions j).getD [],
      (j, c) ∈ SFRM.seqKeys t.tfsdp)
    (hactnd : ((fget t.tfsdp.actions j).getD []).Nodup) :
    ((qsum (g.available_actions h) (fun act =>
        (CFRM.calculate_next_strategy_profile
          s).clipped_average_counterfactual_regrets (h, act)) = 0 →
      (CFRM.calculate_next_strategy_profile s).strategy_profile (h, a)
        = CFRM.initial_strategy_profile g (h, a))
    ∧ (0 < qsum (g.available_actions h) (fun act =>
        (CFRM.calculate_next_strategy_profile
          s).clipped_average_counterfactual_regrets (h, act)) →
      (CFRM.calculate_next_strategy_profile s).strategy_profile (h, a)
        = (CFRM.calculate_next_strategy_profile
            s).clipped_average_counterfactual_regrets (h, a)
          / qsum (g.available_actions h) (fun act =>
              (CFRM.calculate_next_strategy_profile
                s).clipped_average_counterfactual_regrets (h, act))))
    ∧ ((qsum ((fget t.tfsdp.actions j).getD []) (fun c =>
          SFRM.floored_counterfactual_regrets t (j, c)) = 0 →
        (SFRM.next_strategy t).behavioral_strategy (j, b)
          = t.behavioral_uniform_strategy (j, b))
      ∧ (0 < qsum ((fget t.tfsdp.actions j).getD []) (fun c =>
          SFRM.floored_counterfactual_regrets t (j, c)) →
        (SFRM.next_strategy t).behavioral_strategy (j, b)
          = SFRM.floored_counterfactual_regrets t (j, b)
            / qsum ((fget t.tfsdp.actions j).getD []) (fun c =>
                SFRM.floored_counterfactual_regrets t (j, c)))) := by
  obtain ⟨-, -, htreeKeys, -⟩ := (treePostInit_ok_iff _).mp htree
  obtain ⟨-, -, -, -, -, hppKeys, -⟩ :=
    (gamePostInit_ok_iff g).mp hgame
  have hsp : (CFRM.calculate_next_strategy_profile s).strategy_profile
      = CFRM.nextStrategyProfileCalc s
          ((CFRM.calculate_next_strategy_profile
            s).clipped_average_counterfactual_regrets)
          (CFRM.nextStrategyDenom s
            ((CFRM.calculate_next_strategy_profile
              s).clipped_average_counterfactual_regrets)) := rfl
  have hdenom : CFRM.nextStrategyDenom s
      ((CFRM.calculate_next_strategy_profile
        s).clipped_average_counterfactual_regrets) (h, a)
      = qsum (g.available_actions h) (fun act =>
          (CFRM.calculate_next_strategy_profile
            s).clipped_average_counterfactual_regrets (h, act)) :=
    nextStrategyDenom_eq_group_sum g s hcompat hnd htreeKeys hppKeys
      hcomp ha _
  refine ⟨⟨?_, ?_⟩, ?_, ?_⟩
  · intro hS
    rw [congrFun hsp (h, a)]
    unfold CFRM.nextStrategyProfileCalc
    rw [hdenom, if_pos hS, hcompat.2.2.2.2]
  · intro hS
    rw [congrFun hsp (h, a)]
    unfold CFRM.nextStrategyProfileCalc
    rw [hdenom, if_neg (ne_of_gt hS)]
  · intro hS
    have hbs : (SFRM.next_strategy t).behavioral_strategy
        = SFRM.sfNextStrategyBehavioral t
            (SFRM.floored_counterfactual_regrets t) := rfl
    rw [congrFun hbs (j, b)]
    unfold SFRM.sfNextStrategyBehavioral
    rw [sfNextStrategyDenom_eq_group_sum t _ j b hdpnd hjdp hb hkeysnd
      hkeys hactnd, if_pos hS]
  · intro hS
    have hbs : (SFRM.next_strategy t).behavioral_strategy
        = SFRM.sfNextStrategyBehavioral t
            (SFRM.floored_counterfactual_regrets t) := rfl
    rw [congrFun hbs (j, b)]
    unfold SFRM.sfNextStrategyBehavioral
    rw [sfNextStrategyDenom_eq_group_sum t _ j b hdpnd hjdp hb hkeysnd
      hkeys hactnd, if_neg (ne_of_gt hS)]

/-- Witness for C3 at `gOne` (node form, state fresh from setup) and
`sfOne` (sequence form). -/
theorem c3_witness :
    ((qsum (gOne.available_actions 10) (fun act =>
        (CFRM.calculate_next_strategy_profile
          (CFRM.setup gOne)).clipped_average_counterfactual_regrets
          (10, act)) = 0 →
      (CFRM.calculate_next_strategy_profile
        (CFRM.setup gOne)).strategy_profile (10, 5)
        = CFRM.initial_strategy_profile gOne (10, 5))
    ∧ (0 < qsum (gOne.available_actions 10) (fun act =>
        (CFRM.calculate_next_strategy_profile
          (CFRM.setup gOne)).clipped_average_counterfactual_regrets
          (10, act)) →
      (CFRM.calculate_next_strategy_profile
        (CFRM.setup gOne)).strategy_profile (10, 5)
        = (CFRM.calculate_next_strategy_profile
            (CFRM.setup gOne)).clipped_average_counterfactual_regrets (10, 5)
          / qsum (gOne.available_actions 10) (fun act =>
              (CFRM.calculate_next_strategy_profile
                (CFRM.setup gOne)).clipped_average_counterfactual_regrets
                (10, act))))
    ∧ ((qsum ((fget sfOne.tfsdp.actions 0).getD []) (fun c =>
          SFRM.floored_counterfactual_regrets sfOne (0, c)) = 0 →
        (SFRM.next_strategy sfOne).behavioral_strategy (0, 1)
          = sfOne.behavioral_uniform_strategy (0, 1))
      ∧ (0 < qsum ((fget sfOne.tfsdp.actions 0).getD []) (fun c =>
          SFRM.floored_counterfactual_regrets sfOne (0, c)) →
        (SFRM.next_strategy sfOne).behavioral_strategy (0, 1)
          = SFRM.floored_counterfactual_regrets sfOne (0, 1)
            / qsum ((fget sfOne.tfsdp.actions 0).getD []) (fun c =>
                SFRM.floored_counterfactual_regrets sfOne (0, c)))) :=
  c3_next_strategy_uniform_fallback gOne (CFRM.setup gOne) 10 5 (by decide)
    (by rfl) (by rfl) (setup_compiledCompatible gOne) (by decide) (by decide)
    sfOne 0 1 (by decide) (by decide) (by decide) (by decide) (by decide)
    (by decide)
